import Mathlib

/-!
Verification of the gologin-mcp dynamic OpenAPI-to-tool engine.

The source is TypeScript operating on untyped JSON-like values.  We embed
JavaScript values as the inductive type `JVal` (JSON values; JS `undefined`
is represented by `Option.none` at use sites), and translate each source
function field-probe by field-probe, including JS truthiness semantics.
JS exceptions (`TypeError` from the `in` operator on primitives, thrown
`Error`s) are modelled with `Except String`; unbounded `$ref` recursion is
cut with a fuel parameter (fuel exhaustion yields the distinguished error
"fuel", never a value, so `.ok` results are fuel-independent behaviours of
the source).
-/

/-- A JavaScript/JSON value.  `undefined` is not a `JVal`; places where the
source distinguishes `undefined` use `Option JVal` with `none` for it. -/
inductive JVal where
  | str (s : String)
  | num (n : Int)
  | bool (b : Bool)
  | null
  | arr (xs : List JVal)
  | obj (fields : List (String × JVal))
  deriving Repr

/-- JS strict equality of a value against a string literal (`v === "s"`). -/
def jIsStr (v : JVal) (s : String) : Bool :=
  match v with
  | .str t => t = s
  | _ => false

/-- Field list of a JS plain object. -/
abbrev JFields := List (String × JVal)

/-- First-binding lookup in an object field list (JS property read on a plain
object; `none` = `undefined`). -/
def fGet : JFields → String → Option JVal
  | [], _ => none
  | (k, v) :: rest, key => if k = key then some v else fGet rest key

/-- JS property write on a plain object: update in place if the key exists,
else append (JS insertion order). -/
def fSet : JFields → String → JVal → JFields
  | [], key, v => [(key, v)]
  | (k, w) :: rest, key, v =>
      if k = key then (key, v) :: rest else (k, w) :: fSet rest key v

/-- Key presence in a field list (JS `in` operator on a plain object). -/
def fHas (f : JFields) (key : String) : Bool := (fGet f key).isSome

/-- JS truthiness. Empty arrays and objects are truthy. -/
def jTruthy : JVal → Bool
  | .str s => s ≠ ""
  | .num n => n ≠ 0
  | .bool b => b
  | .null => false
  | .arr _ => true
  | .obj _ => true

/-- Truthiness of a possibly-`undefined` value. -/
def oTruthy : Option JVal → Bool
  | none => false
  | some v => jTruthy v

/-- `typeof` on a `JVal` (arrays and `null` are "object"). -/
def jsTypeof : JVal → String
  | .str _ => "string"
  | .num _ => "number"
  | .bool _ => "boolean"
  | .null => "object"
  | .arr _ => "object"
  | .obj _ => "object"

/-- Values on which the JS `in` operator and property access are legal
(objects and arrays). -/
def isObjLike : JVal → Bool
  | .obj _ => true
  | .arr _ => true
  | _ => false

/-- Digits of a natural number (fuel-driven so evaluation reduces
definitionally). -/
def natToCharsAux : Nat → Nat → List Char
  | 0, _ => []
  | Nat.succ fuel, n =>
      if n < 10 then [Char.ofNat (48 + n)]
      else natToCharsAux fuel (n / 10) ++ [Char.ofNat (48 + n % 10)]

/-- Decimal representation of a natural number. -/
def natToStr (n : Nat) : String := String.mk (natToCharsAux (n + 1) n)

/-- Decimal representation of an integer (JS number-to-string on the integral
values this development uses). -/
def intToStr : Int → String
  | .ofNat m => natToStr m
  | .negSucc m => "-" ++ natToStr (m + 1)

/-- Pair each element with its index, starting at `i`. -/
def enumFromAux {α : Type} (i : Nat) : List α → List (Nat × α)
  | [] => []
  | x :: xs => (i, x) :: enumFromAux (i + 1) xs

/-- Split a character list at a separator character (JS `String.split` with a
single-character separator; the empty string yields one empty piece). -/
def charSplit : List Char → Char → List (List Char)
  | [], _ => [[]]
  | c :: rest, sep =>
      let r := charSplit rest sep
      if c = sep then [] :: r
      else
        match r with
        | h :: t => (c :: h) :: t
        | [] => [[c]]

/-- JS `ref.split("/")`. -/
def splitSlash (s : String) : List String := (charSplit s.data '/').map String.mk

/-- ASCII decimal digit. -/
def isDigitAscii (c : Char) : Bool := 48 ≤ c.toNat && c.toNat ≤ 57

/-- Whitespace for JS string trimming (ASCII forms and NBSP). -/
def isJsWhitespace (c : Char) : Bool :=
  c = ' ' || c = '\t' || c = '\n' || c = '\r' || c.toNat = 11 || c.toNat = 12 ||
    c.toNat = 160

/-- JS `String.prototype.trim`. -/
def jsTrim (s : String) : String :=
  String.mk (((s.data.dropWhile isJsWhitespace).reverse.dropWhile
    isJsWhitespace).reverse)

/-- Lower-case the ASCII letters (JS `toLowerCase` on the ASCII strings this
program manipulates). -/
def lowerAscii (s : String) : String :=
  String.mk (s.data.map fun c =>
    if 65 ≤ c.toNat && c.toNat ≤ 90 then Char.ofNat (c.toNat + 32) else c)

/-- Upper-case the ASCII letters (JS `toUpperCase`). -/
def upperAscii (s : String) : String :=
  String.mk (s.data.map fun c =>
    if 97 ≤ c.toNat && c.toNat ≤ 122 then Char.ofNat (c.toNat - 32) else c)

/-- Concatenate strings. -/
def strConcat (xs : List String) : String := String.mk (xs.map String.data).flatten

/-- Join with a separator. -/
def intercalateStr (sep : String) : List String → String
  | [] => ""
  | [x] => x
  | x :: rest => x ++ sep ++ intercalateStr sep rest

/-- Canonical natural-number parse: `some` only for a nonempty all-digit
string. -/
def strToNatCanon (s : String) : Option Nat :=
  if !s.data.isEmpty && s.data.all isDigitAscii then
    some (s.data.foldl (fun a c => a * 10 + (c.toNat - 48)) 0)
  else none

/-- Canonical decimal representation of a natural number (for array index
comparison). -/
def natKey (n : Nat) : String := natToStr n

/-- JS property read `v[key]` for object-like `v`: object field lookup, or
array element access when `key` is a canonical numeric index. -/
def jIndex : JVal → String → Option JVal
  | .obj f, key => fGet f key
  | .arr xs, key =>
      match strToNatCanon key with
      | some i => if natKey i = key then xs.get? i else none
      | none => none
  | _, _ => none

/-- JS property read `v.key` where non-object-like values just yield
`undefined` (used only where the source reads properties of values it does
not first check; primitives have no own properties named like ours). -/
def jGet : JVal → String → Option JVal
  | .obj f, key => fGet f key
  | _, _ => none

/-- `Object.entries` (objects: fields in order; arrays: index/value pairs;
strings: index/character pairs; other primitives: empty). -/
def jsEntries : JVal → List (String × JVal)
  | .obj f => f
  | .arr xs => (enumFromAux 0 xs).map (fun p => (natKey p.1, p.2))
  | .str s => (enumFromAux 0 s.data).map
      (fun p => (natKey p.1, .str (String.mk [p.2])))
  | _ => []

/-- JS `ToString` coercion (template literals, `String(x)`). -/
def jsToString : JVal → String
  | .str s => s
  | .num n => intToStr n
  | .bool b => if b then "true" else "false"
  | .null => "null"
  | .arr xs => intercalateStr "," (xs.map fun x =>
      match x with
      | .null => ""
      | v => jsToStringShallow v)
  | .obj _ => "[object Object]"
where
  /-- One nesting level is enough for every value this development touches;
  deeper arrays coerce their elements as "[object Object]"/plain forms. -/
  jsToStringShallow : JVal → String
  | .str s => s
  | .num n => intToStr n
  | .bool b => if b then "true" else "false"
  | .null => "null"
  | .arr _ => ""
  | .obj _ => "[object Object]"

/-- `Array.prototype.join(sep)`: `null` elements become the empty string. -/
def jsJoin (sep : String) (xs : List JVal) : String :=
  intercalateStr sep (xs.map fun x => match x with
    | .null => ""
    | v => jsToString v)

/-- `Array.prototype.includes` on the primitive values this program compares
(SameValueZero; reference-identity comparisons on arrays/objects are modelled
as never equal, as distinct literals are distinct references). -/
def jvalIncludes (xs : List JVal) (v : JVal) : Bool :=
  xs.any fun x => match x, v with
    | .str a, .str b => a = b
    | .num a, .num b => a = b
    | .bool a, .bool b => a = b
    | .null, .null => true
    | _, _ => false

/- String utilities mirroring the JS string operations the source uses. -/

/-- The opening brace character. -/
def braceOpen : Char := '\x7b'

/-- The closing brace character. -/
def braceClose : Char := '\x7d'

/-- Scanner for the regex `/\x7b([^\x7d]+)\x7d/g` used on path templates:
collects every maximal bracketed token.  `some acc` is the in-token state
holding the (reversed) characters read since the last opening brace. -/
def pathTokensGo : List Char → Option (List Char) → List String
  | [], _ => []
  | c :: rest, none =>
      if c = braceOpen then pathTokensGo rest (some [])
      else pathTokensGo rest none
  | c :: rest, some acc =>
      if c = braceClose then
        if acc.isEmpty then pathTokensGo rest none
        else String.mk acc.reverse :: pathTokensGo rest none
      else pathTokensGo rest (some (c :: acc))

/-- `path.match(/\x7b([^\x7d]+)\x7d/g)?.map(p => p.slice(1, -1)) || []`. -/
def pathTokens (s : String) : List String := pathTokensGo s.data none

/-- Replace the first occurrence of `pat` (as in JS `String.prototype.replace`
with a string pattern; the replacement strings this program builds never
contain `$`, so no substitution patterns arise). -/
def replaceFirstChars (s pat rep : List Char) : List Char :=
  match s with
  | [] => if pat.isEmpty then rep else []
  | c :: rest =>
      if pat.isPrefixOf (c :: rest) then rep ++ (c :: rest).drop pat.length
      else c :: replaceFirstChars rest pat rep

/-- JS `s.replace(pat, rep)` with a plain string pattern. -/
def jsReplaceFirst (s pat rep : String) : String :=
  String.mk (replaceFirstChars s.data pat.data rep.data)

/-- ASCII letter or digit. -/
def isAlnumAscii (c : Char) : Bool :=
  let n := c.toNat
  (97 ≤ n && n ≤ 122) || (65 ≤ n && n ≤ 90) || (48 ≤ n && n ≤ 57)

/-- `replace(/[^a-zA-Z0-9]/g, "_")`. -/
def sanitizeName (s : String) : String :=
  String.mk (s.data.map fun c => if isAlnumAscii c then c else '_')

/-- Scanner for `replace(/_+/g, "_")`: squeeze runs of underscores. -/
def collapseUnderscoreGo : List Char → Bool → List Char
  | [], _ => []
  | c :: rest, prevU =>
      if c = '_' then
        if prevU then collapseUnderscoreGo rest true
        else '_' :: collapseUnderscoreGo rest true
      else c :: collapseUnderscoreGo rest false

/-- `replace(/_+/g, "_")`. -/
def collapseUnderscores (s : String) : String :=
  String.mk (collapseUnderscoreGo s.data false)

/-- Uppercase hexadecimal digit. -/
def hexDigitUpper (n : Nat) : Char :=
  if n < 10 then Char.ofNat (48 + n) else Char.ofNat (55 + n)

/-- `%XX` escape of one byte. -/
def percentByte (b : Nat) : String :=
  String.mk ['%', hexDigitUpper (b / 16 % 16), hexDigitUpper (b % 16)]

/-- UTF-8 bytes of a character. -/
def utf8Bytes (c : Char) : List Nat :=
  let n := c.toNat
  if n < 128 then [n]
  else if n < 2048 then [192 + n / 64, 128 + n % 64]
  else if n < 65536 then [224 + n / 4096, 128 + (n / 64) % 64, 128 + n % 64]
  else [240 + n / 262144, 128 + (n / 4096) % 64, 128 + (n / 64) % 64, 128 + n % 64]

/-- Characters `encodeURIComponent` leaves unescaped. -/
def uriUnreserved (c : Char) : Bool :=
  isAlnumAscii c || c = '-' || c = '_' || c = '.' || c = '!' || c = '~' ||
    c = '*' || c = Char.ofNat 39 || c = '(' || c = ')'

/-- JS `encodeURIComponent`. -/
def encodeURIComponent (s : String) : String :=
  strConcat (s.data.map fun c =>
    if uriUnreserved c then String.mk [c]
    else strConcat ((utf8Bytes c).map percentByte))

/-- Characters the `application/x-www-form-urlencoded` serializer
(`URLSearchParams.toString`) leaves unescaped. -/
def formUnreserved (c : Char) : Bool :=
  isAlnumAscii c || c = '*' || c = '-' || c = '.' || c = '_'

/-- One component of the `URLSearchParams` serialization. -/
def formEncode (s : String) : String :=
  strConcat (s.data.map fun c =>
    if formUnreserved c then String.mk [c]
    else if c = ' ' then "+"
    else strConcat ((utf8Bytes c).map percentByte))

/-- ASCII hexadecimal digit. -/
def isHexDigitAscii (c : Char) : Bool :=
  let n := c.toNat
  (48 ≤ n && n ≤ 57) || (97 ≤ n && n ≤ 102) || (65 ≤ n && n ≤ 70)

/-- Nonempty all-digit character list. -/
def digitsNonEmpty (cs : List Char) : Bool := !cs.isEmpty && cs.all isDigitAscii

/-- Leading digits of a character list, and the remainder.  -/
def takeDigits : List Char → List Char × List Char
  | [] => ([], [])
  | c :: rest =>
      if isDigitAscii c then
        let p := takeDigits rest
        (c :: p.1, p.2)
      else ([], c :: rest)

/-- A well-formed optional exponent part (`e` / `E`, optional sign, digits). -/
def expoOk : List Char → Bool
  | [] => true
  | c :: rest =>
      (c = 'e' || c = 'E') &&
      match rest with
      | [] => false
      | s :: ds =>
          if s = '+' || s = '-' then digitsNonEmpty ds
          else digitsNonEmpty (s :: ds)

/-- A decimal mantissa (digits, `d.d?`, or `.d`) with optional exponent. -/
def mantissaExpOk (cs : List Char) : Bool :=
  let p1 := takeDigits cs
  match p1.2 with
  | '.' :: r2 =>
      let p2 := takeDigits r2
      (!p1.1.isEmpty || !p2.1.isEmpty) && expoOk p2.2
  | r1 => !p1.1.isEmpty && expoOk r1

/-- An unsigned JS numeric literal body (`Infinity` or decimal). -/
def unsignedNumOk (cs : List Char) : Bool :=
  cs = "Infinity".data || mantissaExpOk cs

/-- A signed JS numeric string (after trimming). -/
def signedNumOk : List Char → Bool
  | [] => false
  | c :: rest =>
      if c = '+' || c = '-' then unsignedNumOk rest
      else unsignedNumOk (c :: rest)

/-- A radix-prefixed JS numeric string (`0x`, `0o`, `0b`; unsigned only). -/
def radixNumOk : List Char → Bool
  | '0' :: c :: rest =>
      if c = 'x' || c = 'X' then !rest.isEmpty && rest.all isHexDigitAscii
      else if c = 'o' || c = 'O' then
        !rest.isEmpty && rest.all (fun d => 48 ≤ d.toNat && d.toNat ≤ 55)
      else if c = 'b' || c = 'B' then
        !rest.isEmpty && rest.all (fun d => d = '0' || d = '1')
      else false
  | _ => false

/-- `!isNaN(Number(s))` for a string (whitespace-trimmed; the empty string
coerces to `0`). -/
def strNumberNotNaN (s : String) : Bool :=
  let t := jsTrim s
  t = "" || radixNumOk t.data || signedNumOk t.data

/-- `isNaN(Number(v))` (JS `ToNumber`; plain objects coerce via
"[object Object]", hence NaN; arrays coerce via their joined string). -/
def jsNumberIsNaN (v : JVal) : Bool :=
  match v with
  | .num _ => false
  | .bool _ => false
  | .null => false
  | .str s => !strNumberNotNaN s
  | .arr xs => !strNumberNotNaN (jsToString (.arr xs))
  | .obj _ => true

/-- A single-quote character as a string (used in validation messages). -/
def apos : String := String.mk [Char.ofNat 39]

/- Reference resolution and schema conversion
   (`resolveReference`, `convertOpenAPISchemaToJsonSchema`). -/

/-- The generic fallback schema the source returns when a reference cannot be
resolved. -/
def genericObjectSchema : JVal := .obj [("type", .str "object")]

/-- JS `a || b` where `a` may be `undefined`. -/
def jsOrElse (a : Option JVal) (b : JVal) : JVal :=
  match a with
  | some v => if jTruthy v then v else b
  | none => b

/-- The HTTP verbs the catalog/dispatch loops recognise. -/
def httpMethods : List String :=
  ["get", "post", "put", "delete", "patch", "head", "options"]

/-- The per-segment pointer walk inside `resolveReference`: before indexing,
the loop requires a truthy object-like current value; after the loop the final
value must be truthy.  `none` selects the generic-fallback return. -/
def walkSegments : Option JVal → List String → Option JVal
  | cur, [] =>
      match cur with
      | some c => if jTruthy c then some c else none
      | none => none
  | cur, k :: rest =>
      match cur with
      | some c => if isObjLike c then walkSegments (jIndex c k) rest else none
      | none => none

/-- `resolveReference`'s pointer location: split on `/`, require the leading
`#`, then walk.  `none` means the source returns the generic object schema. -/
def locateRef (apiSpec : Option JVal) (ref : String) : Option JVal :=
  match apiSpec with
  | none => none
  | some doc =>
      let parts := splitSlash ref
      if parts.head? = some "#" then walkSegments (some doc) parts.tail
      else none

/-- Copy a raw-schema attribute into the output when truthy
(`if (schemaObj.k) jsonSchema.k = schemaObj.k`). -/
def condCopyTruthy (s : JVal) (key : String) (f : JFields) : JFields :=
  match jGet s key with
  | some v => if jTruthy v then fSet f key v else f
  | none => f

/-- Copy a raw-schema attribute into the output when present
(`if (schemaObj.k !== undefined) jsonSchema.k = schemaObj.k`). -/
def condCopyPresent (s : JVal) (key : String) (f : JFields) : JFields :=
  match jGet s key with
  | some v => fSet f key v
  | none => f

/-- One scalar-attribute copy of the allOf merge loop: set the attribute from
the branch when the branch's value is truthy and the merged value is not
already truthy. -/
def copyScalar (resolvedSub : JVal) (acc : JFields) (key : String) : JFields :=
  match jGet resolvedSub key with
  | some v => if jTruthy v && !(oTruthy (fGet acc key)) then fSet acc key v else acc
  | none => acc

/-- The scalar attributes merged by the allOf loop, in source order. -/
def scalarKeys : List String :=
  ["enum", "format", "minimum", "maximum", "pattern", "items"]

/-- The required-list union step of the allOf merge: append the branch's
required names not already present (a truthy non-array `required` would make
`.filter` throw in JS). -/
def mergeRequired (acc : JFields) (resolvedSub : JVal) : Except String JFields :=
  match jGet resolvedSub "required" with
  | some rv =>
      if jTruthy rv then
        match rv with
        | .arr rs =>
            let cur : List JVal :=
              match fGet acc "required" with
              | some (.arr xs) => xs
              | _ => []
            .ok (fSet acc "required"
              (.arr (cur ++ rs.filter (fun r => !(jvalIncludes cur r)))))
        | _ => .error "TypeError"
      else .ok acc
  | none => .ok acc

/-- The properties part of one allOf merge iteration: when the branch carries
truthy `properties`, re-convert each of its entries with `conv` into the
merged properties object (created on first use). -/
def mergePropsPart (conv : JVal → Except String JVal) (acc0 : JFields)
    (resolvedSub : JVal) : Except String JFields :=
  match jGet resolvedSub "properties" with
  | some pv =>
      if jTruthy pv then do
        let cur : JFields :=
          match fGet acc0 "properties" with
          | some (.obj ps) => ps
          | _ => []
        let ps ← (jsEntries pv).foldlM (fun ps kv => do
            let v ← conv kv.2
            pure (fSet ps kv.1 v)) cur
        pure (fSet acc0 "properties" (.obj ps))
      else pure acc0
  | none => pure acc0

/-- The (dead in practice) type-inheritance step of the merge: the merged
type is initialized truthy, so the condition never holds; kept for
fidelity. -/
def typeInheritPart (acc : JFields) (resolvedSub : JVal) : JFields :=
  if !(oTruthy (fGet acc "type")) && oTruthy (jGet resolvedSub "type") then
    match jGet resolvedSub "type" with
    | some tv => fSet acc "type" tv
    | none => acc
  else acc

/-- One iteration of the allOf merge over an already-converted branch:
properties, required union, dead type inheritance, then the scalar
attributes. -/
def mergeStep (conv : JVal → Except String JVal) (acc0 : JFields)
    (resolvedSub : JVal) : Except String JFields := do
  let acc1 ← mergePropsPart conv acc0 resolvedSub
  let acc2 ← mergeRequired acc1 resolvedSub
  pure (scalarKeys.foldl (copyScalar resolvedSub) (typeInheritPart acc2 resolvedSub))

/-- The merge's trailing "ensure required array is always present" step. -/
def ensureRequired (f : JFields) : JFields :=
  if oTruthy (fGet f "required") then f else fSet f "required" (.arr [])

/-- `schemaObj.type || "object"` — the output type value. -/
def plainType (s : JVal) : JVal := jsOrElse (jGet s "type") (.str "object")

/-- `schemaObj.type === "array"` on the raw type value. -/
def rawTypeIsArray (s : JVal) : Bool :=
  match jGet s "type" with
  | some v => jIsStr v "array"
  | none => false

/-- The truthy `allOf` value, when any (`if (schemaObj.allOf)`). -/
def allOfArmOf (s : JVal) : Option JVal :=
  match jGet s "allOf" with
  | some av => if jTruthy av then some av else none
  | none => none

/-- The plain-schema `properties` step: convert each entry of a truthy
`properties` value with `recur` into a fresh object. -/
def propsStep (recur : Option JVal → JVal → Except String JVal)
    (apiSpec : Option JVal) (s : JVal) (f0 : JFields) :
    Except String JFields :=
  match jGet s "properties" with
  | some pv =>
      if jTruthy pv then do
        let ps ← (jsEntries pv).foldlM (fun ps kv => do
            let v ← recur apiSpec kv.2
            pure (fSet ps kv.1 v)) ([] : JFields)
        pure (fSet f0 "properties" (.obj ps))
      else pure f0
  | none => pure f0

/-- The plain-schema `items` step: convert a truthy `items` value when the
raw type is "array". -/
def itemsStep (recur : Option JVal → JVal → Except String JVal)
    (apiSpec : Option JVal) (s : JVal) (f : JFields) :
    Except String JFields :=
  if rawTypeIsArray s && oTruthy (jGet s "items") then
    match jGet s "items" with
    | some iv => do
        let iv2 ← recur apiSpec iv
        pure (fSet f "items" iv2)
    | none => pure f
  else pure f

/-- The plain (no `$ref`, no `allOf`) conversion: type (defaulting "object"),
recursively converted properties, a `required` list exactly for object-typed
results, description, items for array-typed raw schemas, enum/format/pattern
when truthy and the numeric bounds when present — in source order. -/
def convertPlain (recur : Option JVal → JVal → Except String JVal)
    (apiSpec : Option JVal) (s : JVal) : Except String JVal := do
  let f1 ← propsStep recur apiSpec s [("type", plainType s)]
  let f4 ← itemsStep recur apiSpec s
    (condCopyTruthy s "description"
      (if jIsStr (plainType s) "object" then
        fSet f1 "required" (jsOrElse (jGet s "required") (.arr []))
      else f1))
  pure (.obj (condCopyTruthy s "pattern" (condCopyPresent s "maximum"
    (condCopyPresent s "minimum" (condCopyTruthy s "format"
      (condCopyTruthy s "enum" f4))))))

/-- The `allOf` conversion: seed the merged object with the combination's own
type (defaulting "object") and truthy description, fold the merge step over
the converted branches, then ensure a `required` array is present. -/
def convertAllOf (recur : Option JVal → JVal → Except String JVal)
    (apiSpec : Option JVal) (s : JVal) (subs : List JVal) :
    Except String JVal := do
  let f ← subs.foldlM (fun acc b => do
      let r ← recur apiSpec b
      mergeStep (recur apiSpec) acc r)
    (condCopyTruthy s "description" [("type", plainType s)])
  pure (.obj (ensureRequired f))

/-- `convertOpenAPISchemaToJsonSchema` (the allOf-merging variant of
`src/src/index.ts`, also present verbatim in the unnamed source), one
recursion level: `$ref` delegates to reference resolution (generic fallback
included); a truthy-array `allOf` merges the branches; otherwise the plain
conversion runs.  Applying it to a primitive is the JS `in`-operator
`TypeError`. -/
def convertBody (recur : Option JVal → JVal → Except String JVal)
    (apiSpec : Option JVal) (s : JVal) : Except String JVal :=
  if !isObjLike s then .error "TypeError"
  else
    match jGet s "$ref" with
    | some (.str r) =>
        (match locateRef apiSpec r with
         | none => .ok genericObjectSchema
         | some target => recur apiSpec target)
    | some _ => .error "TypeError"
    | none =>
        match allOfArmOf s with
        | some (.arr subs) => convertAllOf recur apiSpec s subs
        | some _ => .error "TypeError"
        | none => convertPlain recur apiSpec s

/-- Fuel-indexed fixed point of `convertBody` (structural recursion on the
fuel so closed evaluations reduce definitionally). -/
def convert : Nat → Option JVal → JVal → Except String JVal
  | 0 => fun _ _ => .error "fuel"
  | Nat.succ n => convertBody (convert n)

/-- `resolveReference`: locate the pointer target (generic fallback on any
walk failure), then convert the located raw schema. -/
def resolveReference (fuel : Nat) (apiSpec : Option JVal) (ref : String) :
    Except String JVal :=
  match locateRef apiSpec ref with
  | none => .ok genericObjectSchema
  | some target => convert fuel apiSpec target

/- Data model: the typed shapes of the OpenAPI pieces the engine reads. -/

/-- A declared (non-reference) OpenAPI parameter. -/
structure Parameter where
  name : String
  loc : String
  required : Bool
  schema : Option JVal
  descr : Option String

/-- An entry of an operation's `parameters` array: a `$ref` (skipped by every
loop) or a declared parameter. -/
inductive ParamOrRef where
  | ref (r : String)
  | param (p : Parameter)

/-- An operation's `requestBody`: a reference, or a body whose optional
content maps media types to optional raw schemas. -/
inductive BodyOrRef where
  | ref (r : String)
  | body (content : Option (List (String × Option JVal)))

/-- One OpenAPI operation (the fields the engine reads). -/
structure Operation where
  operationId : Option String
  summary : Option String
  descr : Option String
  parameters : Option (List ParamOrRef)
  requestBody : Option BodyOrRef

/-- The loaded state of a server instance: the raw document value (consulted
by reference resolution), its path→method→operation map restricted to entries
the loops iterate, and the base URL stored at load time. -/
structure ApiSpec where
  raw : JVal
  paths : List (String × List (String × Operation))
  baseUrl : String

/-- First association for a key. -/
def assocFind {α : Type} : List (String × α) → String → Option α
  | [], _ => none
  | (k, v) :: rest, key => if k = key then some v else assocFind rest key

/-- Truthiness of an optional string field. -/
def strTruthy : Option String → Bool
  | none => false
  | some s => s ≠ ""

/- Parameter extraction (the validated variant of `src/src/index.ts`). -/

/-- `getSchemaType`: resolve a `$ref` and read the resulting `type` (default
"object"), else the declared `type` (default "string").  A primitive schema
makes the JS `in` operator throw. -/
def getSchemaType (fuel : Nat) (spec : ApiSpec) (schema : JVal) :
    Except String JVal :=
  if !isObjLike schema then .error "TypeError"
  else
    match jGet schema "$ref" with
    | some (.str r) => do
        let resolved ← resolveReference fuel (some spec.raw) r
        pure (jsOrElse (jGet resolved "type") (.str "object"))
    | some _ => .error "TypeError"
    | none => pure (jsOrElse (jGet schema "type") (.str "string"))

/-- A `{ properties, required }` extraction result. -/
structure ParamsShape where
  properties : JFields
  required : List String

/-- `parameter.description || ""`. -/
def descrOrEmpty (d : Option String) : String :=
  match d with
  | some s => s
  | none => ""

/-- One declared-parameter step of `extractPathParameters`: an `in: "path"`
parameter contributes a `\x7btype, description\x7d` property (the type via
`getSchemaType` when a truthy schema is declared) and its name to the
required list when declared required; references and other locations are
skipped. -/
def declPathParamStep (fuel : Nat) (spec : ApiSpec) (acc : ParamsShape) :
    ParamOrRef → Except String ParamsShape
  | .ref _ => pure acc
  | .param p =>
      if p.loc = "path" then do
        let tv ←
          match p.schema with
          | some s =>
              if jTruthy s then getSchemaType fuel spec s
              else pure (JVal.str "string")
          | none => pure (JVal.str "string")
        pure (ParamsShape.mk
          (fSet acc.properties p.name (JVal.obj [("type", tv),
            ("description", .str (descrOrEmpty p.descr))]))
          (acc.required ++ (if p.required then [p.name] else [])))
      else pure acc

/-- One template-token step of `extractPathParameters`: a token with no
(truthy) property yet is synthesized as a required string parameter. -/
def synthTokenStep (acc : ParamsShape) (tok : String) : ParamsShape :=
  if oTruthy (fGet acc.properties tok) then acc
  else
    ParamsShape.mk
      (fSet acc.properties tok (JVal.obj [("type", .str "string"),
        ("description", .str ("Path parameter: " ++ tok))]))
      (acc.required ++ [tok])

/-- `extractPathParameters`: process the declared parameters, then synthesize
the undeclared bracketed tokens. -/
def extractPathParameters (fuel : Nat) (spec : ApiSpec) (op : Operation)
    (path : String) : Except String ParamsShape := do
  let afterDecl ←
    match op.parameters with
    | none => pure (ParamsShape.mk [] [])
    | some ps => ps.foldlM (declPathParamStep fuel spec) (ParamsShape.mk [] [])
  pure ((pathTokens path).foldl synthTokenStep afterDecl)

/-- `extractQueryParameters`: declared `in: "query"` parameters. -/
def extractQueryParameters (fuel : Nat) (spec : ApiSpec) (op : Operation) :
    Except String ParamsShape := do
  match op.parameters with
  | none => pure ⟨[], []⟩
  | some ps =>
      ps.foldlM (fun acc entry =>
        match entry with
        | .ref _ => pure acc
        | .param p =>
            if p.loc = "query" then do
              let tv ←
                match p.schema with
                | some s =>
                    if jTruthy s then getSchemaType fuel spec s
                    else pure (JVal.str "string")
                | none => pure (JVal.str "string")
              let prop := JVal.obj [("type", tv),
                ("description", .str (descrOrEmpty p.descr))]
              pure (ParamsShape.mk (fSet acc.properties p.name prop)
                (acc.required ++ (if p.required then [p.name] else [])))
            else pure acc) (ParamsShape.mk [] [])

/-- `extractRequestBodySchema`: the converted `application/json` schema of a
non-reference request body, else `null`. -/
def extractRequestBodySchema (fuel : Nat) (spec : ApiSpec) (op : Operation) :
    Except String (Option JVal) :=
  match op.requestBody with
  | none => pure none
  | some (.ref _) => pure none
  | some (.body none) => pure none
  | some (.body (some content)) =>
      match assocFind content "application/json" with
      | none => pure none
      | some none => pure none
      | some (some s) =>
          if jTruthy s then do
            let c ← convert fuel (some spec.raw) s
            pure (some c)
          else pure none

/-- `extractRequiredHeaders`: names of declared required header parameters. -/
def extractRequiredHeaders (op : Operation) : List String :=
  match op.parameters with
  | none => []
  | some ps =>
      ps.foldl (fun acc entry =>
        match entry with
        | .ref _ => acc
        | .param p =>
            if p.loc = "header" && p.required then acc ++ [p.name] else acc) []

/- The Validator (`validateParameterValue`, `validateParameters`). -/

/-- The enum-violation message. -/
def enumErrMsg (paramIn paramName : String) (value : JVal) (es : List JVal) :
    String :=
  "Invalid value for " ++ paramIn ++ " parameter " ++ apos ++ paramName ++
    apos ++ ": " ++ apos ++ jsToString value ++ apos ++ ". Must be one of: " ++
    jsJoin ", " es

/-- The type-violation message. -/
def typeErrMsg (paramIn paramName expected actual : String) : String :=
  "Invalid type for " ++ paramIn ++ " parameter " ++ apos ++ paramName ++
    apos ++ ": expected " ++ expected ++ ", got " ++ actual

/-- The reference-free body of `validateParameterValue`: a truthy `enum`
must contain the value (else an error regardless of the declared type);
otherwise a truthy `type` of "number" accepts non-numbers whose numeric
coercion is not NaN, "boolean" accepts the strings "true"/"false", "string"
rejects non-strings, and any other type value checks nothing.  A truthy
non-array `enum` would make `.includes` misbehave (`TypeError` for the values
this program uses). -/
def validateParameterValueCore (paramName : String) (value : JVal)
    (schemaObj : JVal) (paramIn : String) : Except String (Option String) := do
  let enumErr ←
    match jGet schemaObj "enum" with
    | some ev =>
        if jTruthy ev then
          match ev with
          | .arr es =>
              if !jvalIncludes es value then
                pure (some (enumErrMsg paramIn paramName value es))
              else pure (none : Option String)
          | _ => .error "TypeError"
        else pure (none : Option String)
    | none => pure (none : Option String)
  match enumErr with
  | some e => pure (some e)
  | none =>
      match jGet schemaObj "type" with
      | some tv =>
          if jTruthy tv then
            let actualType := jsTypeof value
            if jIsStr tv "number" then
              if actualType ≠ "number" then
                if jsNumberIsNaN value then
                  pure (some (typeErrMsg paramIn paramName "number" actualType))
                else pure none
              else pure none
            else if jIsStr tv "boolean" then
              if actualType ≠ "boolean" then
                if jIsStr value "true" || jIsStr value "false" then pure none
                else pure (some (typeErrMsg paramIn paramName "boolean" actualType))
              else pure none
            else if jIsStr tv "string" then
              if actualType ≠ "string" then
                pure (some (typeErrMsg paramIn paramName "string" actualType))
              else pure none
            else pure none
          else pure none
      | none => pure none

/-- `validateParameterValue`: resolve a `$ref` schema first (the resolved
value is converter output and hence reference-free, so the source's
self-recursion reaches the plain body after one step). -/
def validateParameterValue (fuel : Nat) (spec : ApiSpec) (paramName : String)
    (value : JVal) (schema : JVal) (paramIn : String) :
    Except String (Option String) :=
  if !isObjLike schema then .error "TypeError"
  else
    match jGet schema "$ref" with
    | some (.str r) => do
        let resolved ← resolveReference fuel (some spec.raw) r
        validateParameterValueCore paramName value resolved paramIn
    | some _ => .error "TypeError"
    | none => validateParameterValueCore paramName value schema paramIn

/-- The caller-supplied invocation arguments (`CallParameters`). -/
structure CallParameters where
  path : Option JFields
  query : Option JFields
  body : Option JVal

/-- The missing-required-path-parameter messages: one summary message when no
path map was supplied at all, else one message per required name whose
supplied value is falsy. -/
def missingPathParamErrs (pr : ParamsShape) (pathVals : Option JFields) :
    List String :=
  if pr.required.length > 0 then
    match pathVals with
    | none => ["Missing required path parameters: " ++
        intercalateStr ", " pr.required]
    | some pf =>
        (pr.required.filter (fun r => !oTruthy (fGet pf r))).map
          (fun r => "Missing required path parameter: " ++ r)
  else []

/-- The missing-required-query-parameter messages. -/
def missingQueryParamErrs (qr : ParamsShape) (queryVals : Option JFields) :
    List String :=
  if qr.required.length > 0 then
    match queryVals with
    | none => ["Missing required query parameters: " ++
        intercalateStr ", " qr.required]
    | some qf =>
        (qr.required.filter (fun r => !oTruthy (fGet qf r))).map
          (fun r => "Missing required query parameter: " ++ r)
  else []

/-- The missing-body message (a truthy converted body schema with a falsy
supplied body). -/
def missingBodyErrs (bodySchema : Option JVal) (body : Option JVal) :
    List String :=
  if oTruthy bodySchema && !oTruthy body then
    ["Missing required request body"]
  else []

/-- The missing-required-header messages (exact and lower-cased lookups both
falsy). -/
def missingHeaderErrs (op : Operation) (headers : JFields) : List String :=
  ((extractRequiredHeaders op).filter (fun h =>
      !oTruthy (fGet headers h) && !oTruthy (fGet headers (lowerAscii h)))).map
    (fun h => "Missing required header: " ++ h)

/-- The per-parameter schema-violation loop: for each declared parameter whose
value was supplied (by location; the header lookup mirrors
`headers[name] || headers[name.toLowerCase()]`) and which has a truthy schema,
collect the value-validation error, if any. -/
def paramValueErrs (fuel : Nat) (spec : ApiSpec) (op : Operation)
    (parameters : CallParameters) (headers : JFields) :
    Except String (List String) :=
  match op.parameters with
  | none => pure []
  | some ps =>
      ps.foldlM (fun acc entry =>
        match entry with
        | .ref _ => pure acc
        | .param p => do
            let value : Option JVal :=
              if p.loc = "path" then
                match parameters.path with
                | some pf => fGet pf p.name
                | none => none
              else if p.loc = "query" then
                match parameters.query with
                | some qf => fGet qf p.name
                | none => none
              else if p.loc = "header" then
                let v1 := fGet headers p.name
                if oTruthy v1 then v1 else fGet headers (lowerAscii p.name)
              else none
            match value with
            | none => pure acc
            | some v =>
                match p.schema with
                | some sch =>
                    if jTruthy sch then do
                      let r ← validateParameterValue fuel spec p.name v sch p.loc
                      match r with
                      | some e => pure (acc ++ [e])
                      | none => pure acc
                    else pure acc
                | none => pure acc) ([] : List String)

/-- `validateParameters`: collect, in source order, the missing-required-path,
missing-required-query, missing-body and missing-header messages, then the
per-parameter schema violations.  Presence of required path/query parameters
is tested by truthiness of the supplied value. -/
def validateParameters (fuel : Nat) (spec : ApiSpec) (op : Operation)
    (path : String) (parameters : CallParameters) (headers : JFields) :
    Except String (List String) := do
  let pathParams ← extractPathParameters fuel spec op path
  let queryParams ← extractQueryParameters fuel spec op
  let bodySchema ← extractRequestBodySchema fuel spec op
  let valueErrs ← paramValueErrs fuel spec op parameters headers
  pure (missingPathParamErrs pathParams parameters.path ++
    missingQueryParamErrs queryParams parameters.query ++
    missingBodyErrs bodySchema parameters.body ++
    missingHeaderErrs op headers ++ valueErrs)

/- Tool-name derivation and operation lookup. -/

/-- The verb-plus-sanitized-path fallback name. -/
def fallbackName (method path : String) : String :=
  method ++ "_" ++ sanitizeName path

/-- The summary-derived tool name: sanitize, squeeze underscore runs,
lower-case. -/
def summaryToolName (summary : String) : String :=
  lowerAscii (collapseUnderscores (sanitizeName summary))

/-- Tool name of the validated variant of `src/src/index.ts`: operationId or
the fallback, overridden by the summary-derived name when a summary is
present.  Its catalog builder and dispatcher both compute exactly this. -/
def toolNameV2 (op : Operation) (method path : String) : String :=
  let base :=
    match op.operationId with
    | some oid => if oid ≠ "" then oid else fallbackName method path
    | none => fallbackName method path
  match op.summary with
  | some s => if s ≠ "" then summaryToolName s else base
  | none => base

/-- Catalog-side tool name in the `McpServer` variant of the unnamed source
(`setupHandlers`): operationId, else the fallback. -/
def catalogNameP1 (op : Operation) (method path : String) : String :=
  match op.operationId with
  | some oid => if oid ≠ "" then oid else fallbackName method path
  | none => fallbackName method path

/-- Dispatch-side recomputed name in the same `McpServer` variant
(`callDynamicTool`): the verb concatenated with the sanitized path after
substituting the first occurrence of "browser" by "profile"; the operationId
is not consulted. -/
def dispatchNameP1 (method path : String) : String :=
  method ++ sanitizeName (jsReplaceFirst path "browser" "profile")

/-- First operation in document order whose method is a known verb and whose
predicate holds (the doubly-nested dispatch search loop). -/
def findOpInItem (path : String) (items : List (String × Operation))
    (pred : String → String → Operation → Bool) :
    Option (String × String × Operation) :=
  match items with
  | [] => none
  | (method, op) :: rest =>
      if httpMethods.contains method && pred path method op then
        some (path, method, op)
      else findOpInItem path rest pred

/-- Search over the whole path map. -/
def findOp (paths : List (String × List (String × Operation)))
    (pred : String → String → Operation → Bool) :
    Option (String × String × Operation) :=
  match paths with
  | [] => none
  | (p, items) :: rest =>
      match findOpInItem p items pred with
      | some r => some r
      | none => findOp rest pred

/-- The tool names the `McpServer` variant registers at catalog-build time,
in document order. -/
def catalogToolNamesP1 (paths : List (String × List (String × Operation))) :
    List String :=
  (paths.map (fun pi =>
    (pi.2.filter (fun mo => httpMethods.contains mo.1)).map
      (fun mo => catalogNameP1 mo.2 mo.1 pi.1))).flatten

/-- The operation the `McpServer` variant's dispatcher selects for a tool
name. -/
def dispatchFindP1 (paths : List (String × List (String × Operation)))
    (toolName : String) : Option (String × String × Operation) :=
  findOp paths (fun path method _ => dispatchNameP1 method path == toolName)

/- The Dispatcher (`callDynamicTool`, validated variant) up to the network
call. -/

/-- JSON string escaping (the characters arising in this development). -/
def jsonEscape (s : String) : String :=
  strConcat (s.data.map fun c =>
    if c = '"' then "\\\""
    else if c = '\\' then "\\\\"
    else if c = '\n' then "\\n"
    else if c = '\t' then "\\t"
    else if c = '\r' then "\\r"
    else String.mk [c])

/-- `JSON.stringify` on values of bounded nesting depth (64 levels cover every
body this development evaluates). -/
def jsonStringifyFuel : Nat → JVal → String
  | 0, _ => ""
  | Nat.succ n, v =>
      match v with
      | .str s => "\"" ++ jsonEscape s ++ "\""
      | .num i => intToStr i
      | .bool b => if b then "true" else "false"
      | .null => "null"
      | .arr xs => "[" ++ intercalateStr "," (xs.map (jsonStringifyFuel n)) ++ "]"
      | .obj f => "\x7b" ++ intercalateStr "," (f.map fun kv =>
          "\"" ++ jsonEscape kv.1 ++ "\":" ++ jsonStringifyFuel n kv.2) ++ "\x7d"

/-- `JSON.stringify(parameters.body)`. -/
def jsonStringify (v : JVal) : String := jsonStringifyFuel 64 v

/-- `URLSearchParams.toString()` over appended `(key, value)` pairs. -/
def serializeQueryPairs (pairs : List (String × String)) : String :=
  intercalateStr "&" (pairs.map fun kv => formEncode kv.1 ++ "=" ++ formEncode kv.2)

/-- Query building at the validated dispatch site (`src/src/index.ts` lines
1320-1329): every entry is appended (values coerced to strings). -/
def queryStringAll (q : JFields) : String :=
  serializeQueryPairs (q.map fun kv => (kv.1, jsToString kv.2))

/-- Query building at the guarded dispatch sites (`src/src/index.ts` lines
508-519 and both unnamed variants): only entries with a truthy value are
appended. -/
def queryStringGuarded (q : JFields) : String :=
  serializeQueryPairs ((q.filter fun kv => jTruthy kv.2).map
    fun kv => (kv.1, jsToString kv.2))

/-- URL finishing common to all variants: append `?` and the query string
when it is nonempty. -/
def appendQueryString (base qs : String) : String :=
  if qs ≠ "" then base ++ "?" ++ qs else base

/-- The guarded variants' URL query step on a substituted base URL. -/
def urlWithQueryGuarded (base : String) (q : JFields) : String :=
  appendQueryString base (queryStringGuarded q)

/-- Path-parameter substitution (identical in every dispatch variant):
`url = url.replace("\x7b" + key + "\x7d", encodeURIComponent(value))` folded
over the supplied entries; `String.replace` with a string pattern replaces
only the first occurrence. -/
def substPathParams (url : String) (pf : JFields) : String :=
  pf.foldl (fun u kv =>
    jsReplaceFirst u ("\x7b" ++ kv.1 ++ "\x7d")
      (encodeURIComponent (jsToString kv.2))) url

/-- The observable outcome of `callDynamicTool` up to the network call: the
structured validation-error payload (its `error` and `details` fields), or
the HTTP request about to be issued.  A `request` value is the point where
the source calls `fetch`; a `validationError` return happens strictly before
it, so no network call is made. -/
inductive DispatchOutcome where
  | validationError (error : String) (details : List String)
  | request (url : String) (method : String) (headers : JFields)
      (body : Option String)
  deriving Repr

/-- `callDynamicTool` of the validated variant (`src/src/index.ts` lines
1247-1346) up to the `fetch` call: resolve the tool name by re-scanning the
paths with the catalog's naming rule, validate, and either return the
validation payload or build the request (URL substitution, query string,
User-Agent/Authorization headers, JSON body on mutating verbs).  Thrown JS
errors (spec not loaded, tool not found) are `Except.error`. -/
def dispatchPrepare (fuel : Nat) (spec? : Option ApiSpec)
    (token : Option String) (toolName : String) (parameters : CallParameters)
    (headers : JFields) : Except String DispatchOutcome :=
  match spec? with
  | none => .error "API specification not loaded"
  | some spec =>
      match findOp spec.paths (fun path method op =>
          toolNameV2 op method path == toolName) with
      | none => .error ("Tool \"" ++ toolName ++ "\" not found")
      | some pmo => do
          let targetPath := pmo.1
          let targetMethod := upperAscii pmo.2.1
          let op := pmo.2.2
          let validationErrors ← validateParameters fuel spec op targetPath
            parameters headers
          if validationErrors.length > 0 then
            pure (.validationError "Parameter validation failed"
              validationErrors)
          else
            let url0 := spec.baseUrl ++ targetPath
            let requestHeaders1 := fSet headers "User-Agent" (.str "gologin-mcp")
            let requestHeaders2 :=
              match token with
              | some t =>
                  if t ≠ "" then
                    fSet requestHeaders1 "Authorization"
                      (.str ("Bearer " ++ t))
                  else requestHeaders1
              | none => requestHeaders1
            let url1 :=
              match parameters.path with
              | some pf => substPathParams url0 pf
              | none => url0
            let qs :=
              match parameters.query with
              | some qf => queryStringAll qf
              | none => ""
            let url2 := appendQueryString url1 qs
            let isMutating := ["POST", "PUT", "PATCH"].contains targetMethod
            let requestHeaders3 :=
              if oTruthy parameters.body && isMutating then
                fSet requestHeaders2 "Content-Type" (.str "application/json")
              else requestHeaders2
            let requestBody :=
              if oTruthy parameters.body && isMutating then
                match parameters.body with
                | some b => some (jsonStringify b)
                | none => none
              else none
            pure (.request url2 targetMethod requestHeaders3 requestBody)

/- Concrete fixtures used by witnesses and counterexamples. -/

/-- An operation declaring nothing. -/
def opBare : Operation := ⟨none, none, none, none, none⟩

/-- The `GET /browser/\x7bid\x7d` document of the name-derivation claims. -/
def pathsBrowserGet : List (String × List (String × Operation)) :=
  [("/browser/{id}", [("get", opBare)])]

/-- An operation with a required `X-Key` header and a required `page` query
parameter. -/
def opHeaderQuery : Operation :=
  ⟨some "listProfiles", none, none,
   some [.param ⟨"X-Key", "header", true, none, none⟩,
         .param ⟨"page", "query", true, none, none⟩], none⟩

/-- A loaded spec whose only operation is `get /profiles` as `opHeaderQuery`. -/
def specHQ : ApiSpec :=
  ⟨.obj [], [("/profiles", [("get", opHeaderQuery)])], "https://api.gologin.com"⟩

/-- A loaded spec whose only operation is a bare `get /profiles`. -/
def specPlain : ApiSpec :=
  ⟨.obj [], [("/profiles", [("get", opBare)])], "https://api.gologin.com"⟩

/-- An operation declaring path parameter `id` with `required: false`. -/
def opOptionalId : Operation :=
  ⟨none, none, none, some [.param ⟨"id", "path", false, none, none⟩], none⟩

/- Auxiliary definitions used by the theorems. -/

/-- Key presence on a `JVal` (false on non-objects). -/
def jHasKey (v : JVal) (key : String) : Bool := (jGet v key).isSome

/-- Read a field of a successful conversion result. -/
def okGet (e : Except String JVal) (key : String) : Option JVal :=
  match e with
  | .ok v => jGet v key
  | .error _ => none

/-- Modelled from the spec (amended C3 wording): the first truthy value an
attribute takes across the converted branches. -/
def firstTruthyAttr (key : String) : List JVal → Option JVal
  | [] => none
  | v :: rest =>
      match jGet v key with
      | some a => if jTruthy a then some a else firstTruthyAttr key rest
      | none => firstTruthyAttr key rest

/-- Whether a converted branch carries a (truthy) `properties` value binding
`key` (the entries the merge loop copies). -/
def branchHasProp (c : JVal) (key : String) : Bool :=
  match jGet c "properties" with
  | some pv => jTruthy pv && (jsEntries pv).any (fun kv => kv.1 = key)
  | none => false

/-- Whether a converted node binds `key` inside its `properties` object. -/
def jPropHas (m : JVal) (key : String) : Bool :=
  match jGet m "properties" with
  | some (.obj ps) => fHas ps key
  | _ => false

/-- The `required` list of a converted node (empty when absent or not an
array). -/
def jReqList (m : JVal) : List JVal :=
  match jGet m "required" with
  | some (.arr xs) => xs
  | _ => []

/-- Whether merged fields bind `key` inside their `properties` object. -/
def fPropHas (f : JFields) (key : String) : Bool :=
  match fGet f "properties" with
  | some (.obj ps) => fHas ps key
  | _ => false

/-- The required-name list a converted branch contributes to the merge
(empty for a falsy or missing `required`; a truthy non-array `required`
makes the merge throw and never yields a result). -/
def branchReq (c : JVal) : List JVal :=
  match jGet c "required" with
  | some (.arr rs) => rs
  | _ => []

/-- Modelled from the spec (C3 wording): left-to-right union keeping the first
occurrence of each name (the merge's `filter`/`push` combination). -/
def unionNoDup (acc : List JVal) : List (List JVal) → List JVal
  | [] => acc
  | rs :: rest => unionNoDup (acc ++ rs.filter (fun r => !jvalIncludes acc r)) rest

/-- The `required` list stored in merged fields. -/
def fReqList (f : JFields) : List JVal :=
  match fGet f "required" with
  | some (.arr xs) => xs
  | _ => []

/-- Names of the operation's declared (non-reference) path parameters. -/
def declaredPathParamNames (op : Operation) : List String :=
  match op.parameters with
  | none => []
  | some ps =>
      ps.filterMap (fun entry =>
        match entry with
        | .ref _ => none
        | .param p => if p.loc = "path" then some p.name else none)

/-- An operation declaring path parameter `id` with `required: true`. -/
def opReqId : Operation :=
  ⟨none, none, none, some [.param ⟨"id", "path", true, none, none⟩], none⟩

/-- An operation declaring query parameter `page` with `required: true`. -/
def opReqPage : Operation :=
  ⟨none, none, none, some [.param ⟨"page", "query", true, none, none⟩], none⟩

/-- The allOf schema whose first branch declares `minimum: 0` and whose
second declares `minimum: 5`. -/
def allOfMinZeroFive : JVal :=
  .obj [("allOf", .arr
    [.obj [("type", .str "number"), ("minimum", .num 0)],
     .obj [("type", .str "number"), ("minimum", .num 5)]])]

/-- Two allOf branches with disjoint properties. -/
def allOfDisjointProps : JVal :=
  .obj [("allOf", .arr
    [.obj [("type", .str "object"), ("properties", .obj [("a", .obj [("type", .str "string")])])],
     .obj [("type", .str "object"), ("properties", .obj [("b", .obj [("type", .str "number")])])]])]

/-- Two allOf branches where only the first declares `pattern`. -/
def allOfOnePattern : JVal :=
  .obj [("allOf", .arr
    [.obj [("type", .str "string"), ("pattern", .str "^a+$")],
     .obj [("type", .str "string")]])]

/-- Two allOf branches both declaring (truthy) `format`. -/
def allOfTwoFormats : JVal :=
  .obj [("allOf", .arr
    [.obj [("type", .str "string"), ("format", .str "uuid")],
     .obj [("type", .str "string"), ("format", .str "email")]])]

/-- The merged `properties` value is absent or a plain object — the shape the
merge maintains by construction. -/
def propsInv (f : JFields) : Prop :=
  fGet f "properties" = none ∨ ∃ ps, fGet f "properties" = some (.obj ps)

/-- Modelled from the claim's wording (C10): in the template `a ++ pat ++ b`,
the displayed occurrence of `pat` is the first — no occurrence of `pat`
begins at any position inside `a`. -/
def firstOccurrenceAt (a pat b : List Char) : Prop :=
  ∀ i, i < a.length → pat.isPrefixOf (List.drop i (a ++ (pat ++ b))) = false

instance (a pat b : List Char) : Decidable (firstOccurrenceAt a pat b) :=
  inferInstanceAs (Decidable (∀ i, i < a.length →
    pat.isPrefixOf (List.drop i (a ++ (pat ++ b))) = false))

/-- A document whose `#/info/title` pointer lands on a truthy string. -/
def docInfoTitle : JVal := .obj [("info", .obj [("title", .str "My API")])]

/- Basic lemmas about the embedding's primitive operations. -/

theorem fGet_fSet_self (f : JFields) (k : String) (v : JVal) :
    fGet (fSet f k v) k = some v := by
  induction f with
  | nil => simp [fGet, fSet]
  | cons kv rest ih =>
      by_cases h : kv.1 = k
      · simp [fGet, fSet, h]
      · simp [fGet, fSet, h, ih]

theorem fGet_fSet_ne (f : JFields) (k key : String) (v : JVal)
    (h : k ≠ key) : fGet (fSet f k v) key = fGet f key := by
  induction f with
  | nil => simp [fGet, fSet, h]
  | cons kv rest ih =>
      by_cases hk : kv.1 = k
      · simp [fGet, fSet, hk, h, ih]
      · by_cases hkey : kv.1 = key
        · simp [fGet, fSet, hk, hkey, Ne.symm h]
        · simp [fGet, fSet, hk, hkey, ih]

theorem fHas_fSet_self (f : JFields) (k : String) (v : JVal) :
    fHas (fSet f k v) k = true := by
  simp [fHas, fGet_fSet_self]

theorem fHas_fSet (f : JFields) (k key : String) (v : JVal) :
    fHas (fSet f k v) key = (decide (k = key) || fHas f key) := by
  by_cases h : k = key
  · subst h
    simp [fHas_fSet_self]
  · simp [fHas, fGet_fSet_ne f k key v h, h]

theorem exceptBindOk {ε α β : Type} {a : Except ε α} {f : α → Except ε β}
    {r : β} (h : a.bind f = .ok r) : ∃ v, a = .ok v ∧ f v = .ok r := by
  cases a with
  | error e => simp [Except.bind] at h
  | ok v => exact ⟨v, rfl, by simpa [Except.bind] using h⟩

theorem exceptBindOkM {ε α β : Type} {a : Except ε α} {f : α → Except ε β}
    {r : β} (h : (a >>= f) = .ok r) : ∃ v, a = .ok v ∧ f v = .ok r :=
  exceptBindOk h

theorem exceptPureOk {ε α : Type} {x r : α}
    (h : (pure x : Except ε α) = .ok r) : x = r := by
  simpa [pure, Except.pure] using h

/- Claim theorems (closed counterexamples and code-bug evaluations). -/

/-- C1: the McpServer variant of the unnamed source registers the catalog
name "get__browser__id_" for `GET /browser/\x7bid\x7d` (no operationId), but
its dispatcher recomputes "get_profile__id_" for the same operation, so
invoking the catalog-listed name selects no operation at all: the
dispatch-side name derivation is not the inverse of the catalog-side one. -/
theorem c1_dispatch_name_not_inverse_of_catalog :
    catalogToolNamesP1 pathsBrowserGet = ["get__browser__id_"] ∧
    dispatchNameP1 "get" "/browser/{id}" = "get_profile__id_" ∧
    catalogNameP1 opBare "get" "/browser/{id}" ≠
      dispatchNameP1 "get" "/browser/{id}" ∧
    dispatchFindP1 pathsBrowserGet "get__browser__id_" = none :=
  ⟨rfl, rfl, by decide, rfl⟩

/-- C3 counterexample: merging `allOf` branches that declare `minimum: 0` and
`minimum: 5` yields `minimum: 5` — the first branch's value is skipped by the
truthiness guard, refuting "taken from the first branch that defines it and
never overwritten by a later branch". -/
theorem c3_first_branch_scalar_lost :
    convert 2 none allOfMinZeroFive =
      .ok (.obj [("type", .str "object"), ("minimum", .num 5),
                 ("required", .arr [])]) ∧
    okGet (convert 2 none allOfMinZeroFive) "minimum" = some (.num 5) ∧
    some (JVal.num 5) ≠ some (JVal.num 0) :=
  ⟨rfl, rfl, by simp⟩

/-- C4 counterexample: for path `/browser/\x7bid\x7d` with a declared path
parameter `id` marked `required: false`, the token `id` appears as a key but
the extracted required list is empty, refuting "is marked required, whether or
not the source document declared a parameter for it". -/
theorem c4_declared_optional_token_not_required :
    "id" ∈ pathTokens "/browser/{id}" ∧
    extractPathParameters 1 specPlain opOptionalId "/browser/{id}" =
      .ok ⟨[("id", .obj [("type", .str "string"), ("description", .str "")])],
           []⟩ ∧
    ¬ ("id" ∈ ([] : List String)) :=
  ⟨by decide, rfl, by simp⟩

/-- C5 counterexample: a pointer whose final segment lands on a truthy
primitive (`#/info/title` → "My API") makes `resolveReference` throw the JS
`TypeError` of the `in` operator instead of returning the generic object
schema — the function is not total. -/
theorem c5_truthy_primitive_target_raises :
    resolveReference 1 (some docInfoTitle) "#/info/title" =
      .error "TypeError" ∧
    (Except.error "TypeError" : Except String JVal) ≠ .ok genericObjectSchema :=
  ⟨rfl, by simp⟩

/-- C6 counterexample: the validated dispatch variant appends every query
entry, so invoking with `\x7bpage: 0\x7d` produces a URL that still carries
`page=0`, refuting "the URL contains no page parameter at all" for that
dispatch site. -/
theorem c6_validated_dispatch_keeps_falsy_query :
    dispatchPrepare 2 (some specPlain) none "get__profiles"
      ⟨none, some [("page", .num 0)], none⟩ [] =
    .ok (.request "https://api.gologin.com/profiles?page=0" "GET"
      [("User-Agent", .str "gologin-mcp")] none) ∧
    "https://api.gologin.com/profiles?page=0" ≠
      "https://api.gologin.com/profiles" :=
  ⟨rfl, by decide⟩

/-- C7 counterexample: feeding a dangling reference through conversion yields
the generic fallback, an object-typed node with no `required` list, refuting
"no object-typed node in the converter's output lacks the required field". -/
theorem c7_ref_fallback_lacks_required :
    convert 2 (some (.obj []))
      (.obj [("$ref", .str "#/components/schemas/Missing")]) =
      .ok genericObjectSchema ∧
    jGet genericObjectSchema "type" = some (.str "object") ∧
    jHasKey genericObjectSchema "required" = false :=
  ⟨rfl, rfl, rfl⟩

/-- Rebuilding a string from its character list is the identity. -/
theorem strMkData : ∀ s : String, String.mk s.data = s
  | .mk _ => rfl

/-- A list is a Boolean prefix of itself followed by anything. -/
theorem isPrefixOfAppendSelf : ∀ (p b : List Char),
    p.isPrefixOf (p ++ b) = true := by
  intro p b
  induction p with
  | nil => simp [List.isPrefixOf]
  | cons c cs ih => simp [List.isPrefixOf, ih]

/-- JS first-occurrence replacement, characterised on an arbitrary
decomposition `a ++ pat ++ b` whose displayed occurrence of `pat` is the
first: the occurrence is rewritten to `rep` and the suffix `b` — holding
every later occurrence of `pat` — is returned verbatim. -/
theorem replaceFirstChars_at_first_occurrence :
    ∀ (a pat b rep : List Char), pat ≠ [] → firstOccurrenceAt a pat b →
      replaceFirstChars (a ++ (pat ++ b)) pat rep = a ++ (rep ++ b) := by
  intro a
  induction a with
  | nil =>
      intro pat b rep hpat _
      rw [List.nil_append, List.nil_append]
      cases hp : pat with
      | nil => exact absurd hp hpat
      | cons p ps =>
          subst hp
          rw [List.cons_append]
          simp only [replaceFirstChars]
          rw [if_pos]
          · rw [← List.cons_append, List.drop_left]
          · rw [← List.cons_append]
            exact isPrefixOfAppendSelf (p :: ps) b
  | cons c a2 ih =>
      intro pat b rep hpat hfirst
      rw [List.cons_append]
      simp only [replaceFirstChars]
      rw [if_neg]
      · rw [List.cons_append]
        refine congrArg (c :: ·) (ih pat b rep hpat ?_)
        intro i hi
        have h := hfirst (i + 1) (by simpa using Nat.succ_lt_succ hi)
        rw [List.cons_append, List.drop_succ_cons] at h
        exact h
      · have h0 := hfirst 0 (by simp)
        rw [List.drop_zero, List.cons_append] at h0
        simp [h0]

/-- `replaceFirstChars_at_first_occurrence` lifted to strings. -/
theorem jsReplaceFirst_first_occurrence (a pat b rep : String)
    (hne : pat.data ≠ [])
    (hfirst : firstOccurrenceAt a.data pat.data b.data) :
    jsReplaceFirst (a ++ pat ++ b) pat rep = a ++ rep ++ b := by
  have hd : (a ++ pat ++ b).data = a.data ++ (pat.data ++ b.data) := by
    simp [String.data_append]
  have hr : (a ++ rep ++ b).data = a.data ++ (rep.data ++ b.data) := by
    simp [String.data_append]
  show String.mk (replaceFirstChars (a ++ pat ++ b).data pat.data rep.data) =
    a ++ rep ++ b
  rw [hd, replaceFirstChars_at_first_occurrence a.data pat.data b.data rep.data
    hne hfirst, ← hr, strMkData]

/-- C10: path substitution uses JS `String.replace` with a string pattern,
which replaces only the first occurrence of each parameter's token. For every
invocation: (1) for every template split as `a ++ "\x7bk\x7d" ++ b` whose
displayed token occurrence is the first, and every value, substituting
parameter `k` rewrites exactly that occurrence to the URL-encoded value and
returns the suffix `b` verbatim, so every occurrence of the token after the
first — all of them lie inside `b` — is left un-substituted; (2) in
particular, for every template in which the token occurs a second time the
later occurrence survives as literal text; (3) the multi-parameter
substitution processes parameters left to right, each performing exactly one
such single first-occurrence replacement on the current URL; (4)-(5)
concrete evaluations on a doubled and a tripled token. -/
theorem c10_path_substitution_first_occurrence_only :
    (∀ (a b k : String) (v : JVal),
        firstOccurrenceAt a.data ("\x7b" ++ k ++ "\x7d").data b.data →
        substPathParams (a ++ ("\x7b" ++ k ++ "\x7d") ++ b) [(k, v)] =
          a ++ encodeURIComponent (jsToString v) ++ b) ∧
    (∀ (a c d k : String) (v : JVal),
        firstOccurrenceAt a.data ("\x7b" ++ k ++ "\x7d").data
          (c ++ ("\x7b" ++ k ++ "\x7d") ++ d).data →
        substPathParams
          (a ++ ("\x7b" ++ k ++ "\x7d") ++ (c ++ ("\x7b" ++ k ++ "\x7d") ++ d))
          [(k, v)] =
          a ++ encodeURIComponent (jsToString v) ++
            (c ++ ("\x7b" ++ k ++ "\x7d") ++ d)) ∧
    (∀ (url k : String) (v : JVal) (rest : JFields),
        substPathParams url ((k, v) :: rest) =
          substPathParams
            (jsReplaceFirst url ("\x7b" ++ k ++ "\x7d")
              (encodeURIComponent (jsToString v))) rest) ∧
    substPathParams "https://x/browser/{id}/clone/{id}" [("id", .str "abc")] =
      "https://x/browser/abc/clone/{id}" ∧
    substPathParams "/a/{x}/{x}/{x}" [("x", .str "1")] = "/a/1/{x}/{x}" := by
  refine ⟨?_, ?_, ?_, rfl, rfl⟩
  · intro a b k v h
    exact jsReplaceFirst_first_occurrence a ("\x7b" ++ k ++ "\x7d") b
      (encodeURIComponent (jsToString v)) (by simp [String.data_append]) h
  · intro a c d k v h
    exact jsReplaceFirst_first_occurrence a ("\x7b" ++ k ++ "\x7d")
      (c ++ ("\x7b" ++ k ++ "\x7d") ++ d)
      (encodeURIComponent (jsToString v)) (by simp [String.data_append]) h
  · intro url k v rest
    rfl

/-- C10 witness: the universal first-occurrence statement instantiated on the
template `/browser/\x7bid\x7d/clone/\x7bid\x7d`: the first token occurrence
is substituted with the encoded value and the second occurrence survives
verbatim in the returned suffix. -/
theorem c10_path_substitution_first_occurrence_only_witness :
    substPathParams
        ("/browser/" ++ ("\x7b" ++ "id" ++ "\x7d") ++ "/clone/\x7bid\x7d")
        [("id", .str "abc")] =
      "/browser/" ++ encodeURIComponent (jsToString (.str "abc")) ++
        "/clone/\x7bid\x7d" :=
  c10_path_substitution_first_occurrence_only.1 "/browser/" "/clone/\x7bid\x7d"
    "id" (.str "abc") (by decide)

/-- C5 (amended): on every failure the claim lists — document not loaded,
pointer not starting at the document root, or a failing pointer walk (missing
segment, falsy or primitive intermediate value, falsy final value) —
`resolveReference` returns the generic object schema without consuming fuel.
(The amendment excludes walks that succeed onto a truthy primitive, where the
conversion step throws instead.) -/
theorem c5_resolution_failure_generic (fuel : Nat) (apiSpec : Option JVal)
    (ref : String)
    (h : apiSpec = none ∨ (splitSlash ref).head? ≠ some "#" ∨
      ∀ doc, apiSpec = some doc →
        walkSegments (some doc) (splitSlash ref).tail = none) :
    resolveReference fuel apiSpec ref = .ok genericObjectSchema := by
  have hloc : locateRef apiSpec ref = none := by
    rcases h with h | h | h
    · simp [locateRef, h]
    · cases apiSpec with
      | none => rfl
      | some doc => simp [locateRef, h]
    · cases apiSpec with
      | none => rfl
      | some doc =>
          by_cases hh : (splitSlash ref).head? = some "#"
          · simp [locateRef, hh, h doc rfl]
          · simp [locateRef, hh]
  simp [resolveReference, hloc]

/-- C5 witness: a dangling pointer on a loaded document resolves to the
generic object schema (even with no fuel: the fallback needs none). -/
theorem c5_resolution_failure_generic_witness :
    resolveReference 0 (some (.obj [])) "#/missing" = .ok genericObjectSchema :=
  c5_resolution_failure_generic 0 (some (.obj [])) "#/missing"
    (Or.inr (Or.inr (fun doc hdoc => by cases hdoc; rfl)))

/-- C6 (amended): at the guarded dispatch sites the query string is built from
exactly the truthy-valued entries — a query map with only falsy values leaves
the URL untouched, `\x7bpage: 1\x7d` yields `?page=1`, and `\x7bpage: 0\x7d`
yields no page parameter; the validated dispatch site instead appends every
entry (see the counterexample). -/
theorem c6_guarded_query_omits_falsy :
    (∀ q : JFields, (∀ kv ∈ q, jTruthy kv.2 = false) →
        ∀ base, urlWithQueryGuarded base q = base) ∧
    (∀ q : JFields, queryStringGuarded q =
        queryStringAll (q.filter fun kv => jTruthy kv.2)) ∧
    urlWithQueryGuarded "https://api.gologin.com/browser" [("page", .num 1)] =
      "https://api.gologin.com/browser?page=1" ∧
    urlWithQueryGuarded "https://api.gologin.com/browser" [("page", .num 0)] =
      "https://api.gologin.com/browser" := by
  refine ⟨?_, fun q => rfl, rfl, rfl⟩
  intro q h base
  have hq : q.filter (fun kv => jTruthy kv.2) = [] := by
    rw [List.filter_eq_nil_iff]
    intro kv hkv
    simp [h kv hkv]
  simp [urlWithQueryGuarded, queryStringGuarded, hq, serializeQueryPairs,
    appendQueryString, intercalateStr]

/-- C6 witness: an all-falsy query leaves a concrete URL unchanged. -/
theorem c6_guarded_query_omits_falsy_witness :
    urlWithQueryGuarded "https://api.gologin.com/browser"
      [("page", .num 0), ("q", .str "")] = "https://api.gologin.com/browser" :=
  c6_guarded_query_omits_falsy.1 [("page", .num 0), ("q", .str "")]
    (by decide) "https://api.gologin.com/browser"

/-- C8: the per-value validator checks a truthy enum first — a value outside
the enum list is the enum error whatever the declared type — and otherwise
accepts a non-number for a number-typed parameter exactly when its JS numeric
coercion is not NaN, and a non-boolean for a boolean-typed parameter exactly
when it is the string "true" or "false". -/
theorem c8_enum_first_and_coercions :
    (∀ (pn pIn : String) (v tval : JVal) (es : List JVal),
        jvalIncludes es v = false →
        validateParameterValueCore pn v
          (.obj [("type", tval), ("enum", .arr es)]) pIn =
          .ok (some (enumErrMsg pIn pn v es))) ∧
    (∀ (pn pIn : String) (v : JVal),
        jsTypeof v ≠ "number" →
        validateParameterValueCore pn v (.obj [("type", .str "number")]) pIn =
          .ok (if jsNumberIsNaN v then
                 some (typeErrMsg pIn pn "number" (jsTypeof v))
               else none)) ∧
    (∀ (pn pIn : String) (v : JVal),
        jsTypeof v ≠ "boolean" →
        validateParameterValueCore pn v (.obj [("type", .str "boolean")]) pIn =
          .ok (if jIsStr v "true" || jIsStr v "false" then none
               else some (typeErrMsg pIn pn "boolean" (jsTypeof v)))) := by
  refine ⟨?_, ?_, ?_⟩
  · intro pn pIn v tval es h
    simp [validateParameterValueCore, jGet, fGet, jTruthy, h, pure, Except.pure,
      Bind.bind, Except.bind]
  · intro pn pIn v h
    simp only [validateParameterValueCore, jGet, fGet]
    simp [jTruthy, jIsStr, h]
    split <;> rfl
  · intro pn pIn v h
    simp only [validateParameterValueCore, jGet, fGet]
    simp [jTruthy, jIsStr, h]
    split <;> rfl

/-- C8 witness: concrete enum rejection regardless of type, string-typed
numerals accepted and non-numerics rejected for numbers, and the
"true"/"false" strings accepted for booleans while other non-booleans are
rejected. -/
theorem c8_enum_first_and_coercions_witness :
    validateParameterValueCore "profileType" (.str "c")
      (.obj [("type", .str "string"), ("enum", .arr [.str "a", .str "b"])])
      "query" =
      .ok (some (enumErrMsg "query" "profileType" (.str "c")
        [.str "a", .str "b"])) ∧
    validateParameterValueCore "page" (.str "42")
      (.obj [("type", .str "number")]) "query" = .ok none ∧
    validateParameterValueCore "page" (.str "abc")
      (.obj [("type", .str "number")]) "query" =
      .ok (some (typeErrMsg "query" "page" "number" "string")) ∧
    validateParameterValueCore "flag" (.str "true")
      (.obj [("type", .str "boolean")]) "query" = .ok none ∧
    validateParameterValueCore "flag" (.num 5)
      (.obj [("type", .str "boolean")]) "query" =
      .ok (some (typeErrMsg "query" "flag" "boolean" "number")) :=
  ⟨c8_enum_first_and_coercions.1 "profileType" "query" (.str "c")
      (.str "string") [.str "a", .str "b"] rfl,
   c8_enum_first_and_coercions.2.1 "page" "query" (.str "42") (by decide),
   c8_enum_first_and_coercions.2.1 "page" "query" (.str "abc") (by decide),
   c8_enum_first_and_coercions.2.2 "flag" "query" (.str "true") (by decide),
   c8_enum_first_and_coercions.2.2 "flag" "query" (.num 5) (by decide)⟩

/-- C9: required path/query presence is tested by truthiness of the supplied
value — a required parameter supplied with a falsy value (e.g. the empty
string) produces the same "Missing required ... parameter" message as an
absent one, and on a schema-free operation the whole validation result is
identical to the not-supplied case. -/
theorem c9_presence_tested_by_truthiness :
    (∀ (fuel : Nat) (spec : ApiSpec) (op : Operation) (path : String)
        (q : Option JFields) (b : Option JVal) (headers : JFields)
        (pf : JFields) (pr : ParamsShape) (r : String) (errs : List String),
        extractPathParameters fuel spec op path = .ok pr →
        r ∈ pr.required → oTruthy (fGet pf r) = false →
        validateParameters fuel spec op path ⟨some pf, q, b⟩ headers =
          .ok errs →
        ("Missing required path parameter: " ++ r) ∈ errs) ∧
    (∀ (fuel : Nat) (spec : ApiSpec) (op : Operation) (path : String)
        (p : Option JFields) (b : Option JVal) (headers : JFields)
        (qf : JFields) (qr : ParamsShape) (r : String) (errs : List String),
        extractQueryParameters fuel spec op = .ok qr →
        r ∈ qr.required → oTruthy (fGet qf r) = false →
        validateParameters fuel spec op path ⟨p, some qf, b⟩ headers =
          .ok errs →
        ("Missing required query parameter: " ++ r) ∈ errs) ∧
    validateParameters 1 specPlain opReqId "/browser/{id}"
        ⟨some [("id", .str "")], none, none⟩ [] =
      validateParameters 1 specPlain opReqId "/browser/{id}"
        ⟨some [], none, none⟩ [] := by
  refine ⟨?_, ?_, rfl⟩
  · intro fuel spec op path q b headers pf pr r errs hex hr hfalsy hval
    unfold validateParameters at hval
    obtain ⟨pr2, hpr2, hval⟩ := exceptBindOkM hval
    rw [hex] at hpr2
    injection hpr2 with hpr2
    subst hpr2
    obtain ⟨qr, hqr, hval⟩ := exceptBindOkM hval
    obtain ⟨bs, hbs, hval⟩ := exceptBindOkM hval
    obtain ⟨ve, hve, hval⟩ := exceptBindOkM hval
    have herrs := exceptPureOk hval
    rw [← herrs]
    have hmem : ("Missing required path parameter: " ++ r) ∈
        missingPathParamErrs pr (some pf) := by
      unfold missingPathParamErrs
      rw [if_pos]
      · exact List.mem_map.mpr ⟨r, List.mem_filter.mpr ⟨hr, by simp [hfalsy]⟩,
          rfl⟩
      · exact List.length_pos.mpr (List.ne_nil_of_mem hr)
    simp only [List.mem_append]
    exact Or.inl (Or.inl (Or.inl (Or.inl hmem)))
  · intro fuel spec op path p b headers qf qr r errs hex hr hfalsy hval
    unfold validateParameters at hval
    obtain ⟨pr2, hpr2, hval⟩ := exceptBindOkM hval
    obtain ⟨qr2, hqr2, hval⟩ := exceptBindOkM hval
    rw [hex] at hqr2
    injection hqr2 with hqr2
    subst hqr2
    obtain ⟨bs, hbs, hval⟩ := exceptBindOkM hval
    obtain ⟨ve, hve, hval⟩ := exceptBindOkM hval
    have herrs := exceptPureOk hval
    rw [← herrs]
    have hmem : ("Missing required query parameter: " ++ r) ∈
        missingQueryParamErrs qr (some qf) := by
      unfold missingQueryParamErrs
      rw [if_pos]
      · exact List.mem_map.mpr ⟨r, List.mem_filter.mpr ⟨hr, by simp [hfalsy]⟩,
          rfl⟩
      · exact List.length_pos.mpr (List.ne_nil_of_mem hr)
    simp only [List.mem_append]
    exact Or.inl (Or.inl (Or.inl (Or.inr hmem)))

/-- C9 witness: a required path parameter supplied as the empty string and a
required query parameter supplied as the empty string are both reported
missing. -/
theorem c9_presence_tested_by_truthiness_witness :
    ("Missing required path parameter: id" ∈
      ["Missing required path parameter: id"]) ∧
    ("Missing required query parameter: page" ∈
      ["Missing required query parameter: page"]) :=
  ⟨c9_presence_tested_by_truthiness.1 1 specPlain opReqId "/browser/{id}"
      none none [] [("id", .str "")] ⟨[("id", .obj [("type", .str "string"),
        ("description", .str "")])], ["id"]⟩ "id"
      ["Missing required path parameter: id"] rfl (by decide) rfl rfl,
   c9_presence_tested_by_truthiness.2.1 1 specPlain opReqPage "/profiles"
      none none [] [("page", .str "")] ⟨[("page", .obj [("type", .str "string"),
        ("description", .str "")])], ["page"]⟩ "page"
      ["Missing required query parameter: page"] rfl (by decide) rfl rfl⟩

/-- C2: whenever the validator's message list is non-empty, `callDynamicTool`
returns the structured `\x7b error, details \x7d` payload carrying exactly
that list, and its outcome is not a request — the fetch is never reached.
The validator's list concatenates every violation segment (path, query, body,
header, per-value), not only the first. -/
theorem c2_validation_errors_block_dispatch :
    (∀ (fuel : Nat) (spec : ApiSpec) (token : Option String)
        (toolName : String) (parameters : CallParameters) (headers : JFields)
        (path method : String) (op : Operation) (errs : List String),
        findOp spec.paths (fun p m o => toolNameV2 o m p == toolName) =
          some (path, method, op) →
        validateParameters fuel spec op path parameters headers = .ok errs →
        errs ≠ [] →
        dispatchPrepare fuel (some spec) token toolName parameters headers =
          .ok (.validationError "Parameter validation failed" errs)) ∧
    (∀ (e : String) (d : List String) (u m : String) (h : JFields)
        (b : Option String),
        DispatchOutcome.validationError e d ≠ .request u m h b) := by
  constructor
  · intro fuel spec token toolName parameters headers path method op errs
      hfind hval hne
    simp [dispatchPrepare, hfind, hval, Bind.bind, Except.bind, pure,
      Except.pure, List.length_pos, hne]
  · intro e d u m h b
    simp

/-- C2 witness: an invocation missing both a required query parameter and the
required header `X-Key` yields the payload with both messages (accumulation,
not just the first violation) and no request. -/
theorem c2_validation_errors_block_dispatch_witness :
    dispatchPrepare 2 (some specHQ) none "listProfiles" ⟨none, some [], none⟩
      [] =
    .ok (.validationError "Parameter validation failed"
      ["Missing required query parameter: page",
       "Missing required header: X-Key"]) :=
  c2_validation_errors_block_dispatch.1 2 specHQ none "listProfiles"
    ⟨none, some [], none⟩ [] "/profiles" "get" opHeaderQuery
    ["Missing required query parameter: page",
     "Missing required header: X-Key"] rfl rfl (by simp)

/- Fold lemmas for the path-token synthesis of `extractPathParameters`. -/

theorem synth_props_mono (toks : List String) (acc : ParamsShape)
    (tok : String) (h : oTruthy (fGet acc.properties tok) = true) :
    oTruthy (fGet (toks.foldl synthTokenStep acc).properties tok) = true := by
  induction toks generalizing acc with
  | nil => simpa using h
  | cons t ts ih =>
      simp only [List.foldl_cons]
      apply ih
      unfold synthTokenStep
      split
      · exact h
      · by_cases ht : t = tok
        · subst ht
          simp [fGet_fSet_self, oTruthy, jTruthy]
        · simpa [fGet_fSet_ne _ t tok _ ht] using h

theorem synth_required_mono (toks : List String) (acc : ParamsShape)
    (tok : String) (h : tok ∈ acc.required) :
    tok ∈ (toks.foldl synthTokenStep acc).required := by
  induction toks generalizing acc with
  | nil => simpa using h
  | cons t ts ih =>
      simp only [List.foldl_cons]
      apply ih
      unfold synthTokenStep
      split
      · exact h
      · exact List.mem_append_left _ h

theorem synth_token_present (toks : List String) (acc : ParamsShape)
    (tok : String) (h : tok ∈ toks) :
    oTruthy (fGet (toks.foldl synthTokenStep acc).properties tok) = true := by
  induction toks generalizing acc with
  | nil => cases h
  | cons t ts ih =>
      simp only [List.foldl_cons]
      rcases List.mem_cons.mp h with h | h
      · subst h
        apply synth_props_mono
        unfold synthTokenStep
        split
        · assumption
        · simp [fGet_fSet_self, oTruthy, jTruthy]
      · exact ih _ h

theorem synth_undeclared_required (toks : List String) (acc : ParamsShape)
    (tok : String) (hmem : tok ∈ toks)
    (hprop : oTruthy (fGet acc.properties tok) = false) :
    tok ∈ (toks.foldl synthTokenStep acc).required := by
  induction toks generalizing acc with
  | nil => cases hmem
  | cons t ts ih =>
      simp only [List.foldl_cons]
      by_cases ht : t = tok
      · subst ht
        apply synth_required_mono
        unfold synthTokenStep
        rw [hprop]
        simp
      · rcases List.mem_cons.mp hmem with h | h
        · exact absurd h.symm ht
        · apply ih _ h
          unfold synthTokenStep
          split
          · exact hprop
          · simpa [fGet_fSet_ne _ t tok _ ht] using hprop

theorem declPathParamStep_param_path (fuel : Nat) (spec : ApiSpec)
    (acc : ParamsShape) (p : Parameter) (acc1 : ParamsShape)
    (hloc : p.loc = "path")
    (h : declPathParamStep fuel spec acc (.param p) = .ok acc1) :
    ∃ tv, acc1 = ParamsShape.mk
      (fSet acc.properties p.name (JVal.obj [("type", tv),
        ("description", .str (descrOrEmpty p.descr))]))
      (acc.required ++ (if p.required then [p.name] else [])) := by
  cases hsch : p.schema with
  | none =>
      simp [declPathParamStep, hloc, hsch, pure, Except.pure, Bind.bind,
        Except.bind] at h
      exact ⟨.str "string", h.symm⟩
  | some s =>
      by_cases hts : jTruthy s
      · simp [declPathParamStep, hloc, hsch, hts] at h
        obtain ⟨tv, htv, hp⟩ := exceptBindOkM h
        have := exceptPureOk hp
        exact ⟨tv, this.symm⟩
      · simp [declPathParamStep, hloc, hsch, hts, pure, Except.pure, Bind.bind,
          Except.bind] at h
        exact ⟨.str "string", h.symm⟩

theorem declPathParamStep_skip (fuel : Nat) (spec : ApiSpec)
    (acc acc1 : ParamsShape) (e : ParamOrRef)
    (hskip : (match e with
      | .ref _ => True
      | .param p => p.loc ≠ "path"))
    (h : declPathParamStep fuel spec acc e = .ok acc1) : acc = acc1 := by
  cases e with
  | ref s => exact exceptPureOk h
  | param p =>
      simp only at hskip
      simp [declPathParamStep, hskip, pure, Except.pure] at h
      exact h

theorem decl_props_from_declared (fuel : Nat) (spec : ApiSpec) :
    ∀ (ps : List ParamOrRef) (acc r : ParamsShape),
      ps.foldlM (declPathParamStep fuel spec) acc = .ok r →
      ∀ t, oTruthy (fGet r.properties t) = true →
        oTruthy (fGet acc.properties t) = true ∨
        t ∈ ps.filterMap (fun entry =>
          match entry with
          | .ref _ => none
          | .param p => if p.loc = "path" then some p.name else none) := by
  intro ps
  induction ps with
  | nil =>
      intro acc r h t ht
      left
      simp only [List.foldlM_nil] at h
      have := exceptPureOk h
      rw [this]
      exact ht
  | cons e rest ih =>
      intro acc r h t ht
      rw [List.foldlM_cons] at h
      obtain ⟨acc1, hstep, hrest⟩ := exceptBindOkM h
      have hsub : t ∈ rest.filterMap (fun entry =>
          match entry with
          | .ref _ => none
          | .param p => if p.loc = "path" then some p.name else none) →
          t ∈ (e :: rest).filterMap (fun entry =>
          match entry with
          | .ref _ => none
          | .param p => if p.loc = "path" then some p.name else none) := by
        intro hx
        cases e with
        | ref s => simpa [List.filterMap_cons] using hx
        | param p =>
            by_cases hloc : p.loc = "path"
            · simp only [List.filterMap_cons, hloc]
              simp only [if_pos]
              exact List.mem_cons_of_mem _ hx
            · simpa [List.filterMap_cons, hloc] using hx
      rcases ih acc1 r hrest t ht with h1 | h1
      · cases e with
        | ref s =>
            have : acc = acc1 := exceptPureOk hstep
            rw [this]
            exact Or.inl h1
        | param p =>
            by_cases hloc : p.loc = "path"
            · obtain ⟨tv, hacc1⟩ :=
                declPathParamStep_param_path fuel spec acc p acc1 hloc hstep
              rw [hacc1] at h1
              by_cases hn : p.name = t
              · right
                simp [List.filterMap_cons, hloc, hn]
              · simp only at h1
                rw [fGet_fSet_ne _ p.name t _ hn] at h1
                exact Or.inl h1
            · have : acc = acc1 :=
                declPathParamStep_skip fuel spec acc acc1 (.param p) hloc hstep
              rw [this]
              exact Or.inl h1
      · exact Or.inr (hsub h1)

/-- C4 (amended): every bracketed token of the path template appears as a
(truthy) key of the extracted path-parameter properties, and every token with
no declared path parameter is synthesized and marked required.  (A token whose
declared parameter says `required: false` keeps that declaration — see the
counterexample.) -/
theorem c4_every_token_in_path_schema :
    ∀ (fuel : Nat) (spec : ApiSpec) (op : Operation) (path tok : String)
      (r : ParamsShape),
      extractPathParameters fuel spec op path = .ok r →
      tok ∈ pathTokens path →
      oTruthy (fGet r.properties tok) = true ∧
      (tok ∉ declaredPathParamNames op → tok ∈ r.required) := by
  intro fuel spec op path tok r hex htok
  unfold extractPathParameters at hex
  cases hop : op.parameters with
  | none =>
      rw [hop] at hex
      simp [pure, Except.pure, Bind.bind, Except.bind] at hex
      rw [← hex]
      refine ⟨synth_token_present _ _ _ htok, ?_⟩
      intro hundecl
      exact synth_undeclared_required _ _ _ htok rfl
  | some ps =>
      rw [hop] at hex
      simp only [Bind.bind] at hex
      obtain ⟨afterDecl, hdecl, hpure⟩ := exceptBindOk hex
      have hr := exceptPureOk hpure
      rw [← hr]
      refine ⟨synth_token_present _ _ _ htok, ?_⟩
      intro hundecl
      have hprop : oTruthy (fGet afterDecl.properties tok) = false := by
        rcases Bool.eq_false_or_eq_true
            (oTruthy (fGet afterDecl.properties tok)) with hb | hb
        · rcases decl_props_from_declared fuel spec ps _ _ hdecl tok hb
            with h1 | h1
          · simp [fGet, oTruthy] at h1
          · exact absurd (by simpa [declaredPathParamNames, hop] using h1)
              hundecl
        · exact hb
      exact synth_undeclared_required _ _ _ htok hprop

/-- C4 witness: for `GET /browser/\x7bid\x7d` with no declared parameters the
token `id` is synthesized, present and required. -/
theorem c4_every_token_in_path_schema_witness :
    oTruthy (fGet ([("id", JVal.obj [("type", .str "string"),
      ("description", .str "Path parameter: id")])] : JFields) "id") = true ∧
    "id" ∈ ["id"] :=
  have h := c4_every_token_in_path_schema 1 specPlain opBare "/browser/{id}"
    "id" ⟨[("id", JVal.obj [("type", .str "string"),
      ("description", .str "Path parameter: id")])], ["id"]⟩ rfl (by decide)
  ⟨h.1, h.2 (by decide)⟩

/- Preservation lemmas for the converter's field-copy steps. -/

theorem fGet_condCopyTruthy_ne (s : JVal) (k key : String) (f : JFields)
    (h : k ≠ key) : fGet (condCopyTruthy s k f) key = fGet f key := by
  unfold condCopyTruthy
  cases jGet s k with
  | none => rfl
  | some v =>
      rcases Bool.eq_false_or_eq_true (jTruthy v) with hv | hv <;>
        simp [hv, fGet_fSet_ne f k key v h]

theorem fGet_condCopyPresent_ne (s : JVal) (k key : String) (f : JFields)
    (h : k ≠ key) : fGet (condCopyPresent s k f) key = fGet f key := by
  unfold condCopyPresent
  cases jGet s k with
  | none => rfl
  | some v => exact fGet_fSet_ne f k key v h

theorem fHas_fSet_mono (f : JFields) (k key : String) (v : JVal)
    (h : fHas f key = true) : fHas (fSet f k v) key = true := by
  rw [fHas_fSet]
  simp [h]

theorem fHas_condCopyTruthy_mono (s : JVal) (k key : String) (f : JFields)
    (h : fHas f key = true) : fHas (condCopyTruthy s k f) key = true := by
  unfold condCopyTruthy
  cases jGet s k with
  | none => exact h
  | some v =>
      rcases Bool.eq_false_or_eq_true (jTruthy v) with hv | hv <;>
        simp [hv, fHas_fSet_mono f k key v h, h]

theorem fHas_condCopyPresent_mono (s : JVal) (k key : String) (f : JFields)
    (h : fHas f key = true) : fHas (condCopyPresent s k f) key = true := by
  unfold condCopyPresent
  cases jGet s k with
  | none => exact h
  | some v => exact fHas_fSet_mono f k key v h

theorem fHas_ensureRequired (f : JFields) :
    fHas (ensureRequired f) "required" = true := by
  unfold ensureRequired
  split
  · rename_i h
    unfold fHas
    cases hg : fGet f "required" with
    | none => simp [hg, oTruthy] at h
    | some v => simp
  · exact fHas_fSet_self f "required" (.arr [])

theorem propsStep_ok_fGet_ne (recur : Option JVal → JVal → Except String JVal)
    (apiSpec : Option JVal) (s : JVal) (f0 f1 : JFields) (key : String)
    (hkey : "properties" ≠ key) (h : propsStep recur apiSpec s f0 = .ok f1) :
    fGet f1 key = fGet f0 key := by
  unfold propsStep at h
  split at h
  · split at h
    · obtain ⟨ps, hps, hpure⟩ := exceptBindOkM h
      rw [← exceptPureOk hpure]
      exact fGet_fSet_ne f0 "properties" key (.obj ps) hkey
    · rw [exceptPureOk h]
  · rw [exceptPureOk h]

theorem propsStep_ok_fHas_mono (recur : Option JVal → JVal → Except String JVal)
    (apiSpec : Option JVal) (s : JVal) (f0 f1 : JFields) (key : String)
    (hh : fHas f0 key = true) (h : propsStep recur apiSpec s f0 = .ok f1) :
    fHas f1 key = true := by
  unfold propsStep at h
  split at h
  · split at h
    · obtain ⟨ps, hps, hpure⟩ := exceptBindOkM h
      rw [← exceptPureOk hpure]
      exact fHas_fSet_mono f0 "properties" key (.obj ps) hh
    · rw [← exceptPureOk h]
      exact hh
  · rw [← exceptPureOk h]
    exact hh

theorem itemsStep_ok_fGet_ne (recur : Option JVal → JVal → Except String JVal)
    (apiSpec : Option JVal) (s : JVal) (f f4 : JFields) (key : String)
    (hkey : "items" ≠ key) (h : itemsStep recur apiSpec s f = .ok f4) :
    fGet f4 key = fGet f key := by
  unfold itemsStep at h
  split at h
  · split at h
    · obtain ⟨iv2, hiv2, hpure⟩ := exceptBindOkM h
      rw [← exceptPureOk hpure]
      exact fGet_fSet_ne f "items" key iv2 hkey
    · rw [exceptPureOk h]
  · rw [exceptPureOk h]

theorem itemsStep_ok_fHas_mono (recur : Option JVal → JVal → Except String JVal)
    (apiSpec : Option JVal) (s : JVal) (f f4 : JFields) (key : String)
    (hh : fHas f key = true) (h : itemsStep recur apiSpec s f = .ok f4) :
    fHas f4 key = true := by
  unfold itemsStep at h
  split at h
  · split at h
    · obtain ⟨iv2, hiv2, hpure⟩ := exceptBindOkM h
      rw [← exceptPureOk hpure]
      exact fHas_fSet_mono f "items" key iv2 hh
    · rw [← exceptPureOk h]
      exact hh
  · rw [← exceptPureOk h]
    exact hh

theorem convertPlain_type_required
    (recur : Option JVal → JVal → Except String JVal) (apiSpec : Option JVal)
    (s m : JVal) (h : convertPlain recur apiSpec s = .ok m) :
    jGet m "type" = some (plainType s) ∧
    (jIsStr (plainType s) "object" = true → jHasKey m "required" = true) := by
  unfold convertPlain at h
  obtain ⟨f1, hf1, h2⟩ := exceptBindOkM h
  obtain ⟨f4, hf4, h3⟩ := exceptBindOkM h2
  rw [← exceptPureOk h3]
  constructor
  · show fGet _ "type" = some (plainType s)
    rw [fGet_condCopyTruthy_ne _ _ _ _ (by decide),
      fGet_condCopyPresent_ne _ _ _ _ (by decide),
      fGet_condCopyPresent_ne _ _ _ _ (by decide),
      fGet_condCopyTruthy_ne _ _ _ _ (by decide),
      fGet_condCopyTruthy_ne _ _ _ _ (by decide),
      itemsStep_ok_fGet_ne _ _ _ _ _ _ (by decide) hf4,
      fGet_condCopyTruthy_ne _ _ _ _ (by decide)]
    have hbase : fGet (if jIsStr (plainType s) "object" = true then
        fSet f1 "required" (jsOrElse (jGet s "required") (.arr []))
      else f1) "type" = fGet f1 "type" := by
      split
      · exact fGet_fSet_ne f1 "required" "type" _ (by decide)
      · rfl
    rw [hbase, propsStep_ok_fGet_ne _ _ _ _ _ _ (by decide) hf1]
    rfl
  · intro hio
    show jHasKey (JVal.obj _) "required" = true
    show fHas _ "required" = true
    apply fHas_condCopyTruthy_mono
    apply fHas_condCopyPresent_mono
    apply fHas_condCopyPresent_mono
    apply fHas_condCopyTruthy_mono
    apply fHas_condCopyTruthy_mono
    apply itemsStep_ok_fHas_mono _ _ _ _ _ _ _ hf4
    apply fHas_condCopyTruthy_mono
    rw [hio, if_pos rfl]
    exact fHas_fSet_self f1 "required" _

theorem convertAllOf_ok_shape
    (recur : Option JVal → JVal → Except String JVal) (apiSpec : Option JVal)
    (s m : JVal) (subs : List JVal)
    (h : convertAllOf recur apiSpec s subs = .ok m) :
    ∃ f, m = .obj (ensureRequired f) := by
  unfold convertAllOf at h
  obtain ⟨f, hf, hpure⟩ := exceptBindOkM h
  exact ⟨f, (exceptPureOk hpure).symm⟩

/-- C7 (amended): every object-typed node the converter itself builds — both
plain results whose computed type is "object" and every allOf merge result —
carries a `required` key; the exception is the generic fallback produced by
reference resolution, which is object-typed but bare (see the
counterexample). -/
theorem c7_converted_object_nodes_carry_required :
    ∀ (n : Nat) (apiSpec : Option JVal) (s m : JVal),
      isObjLike s = true → jGet s "$ref" = none →
      convert (n + 1) apiSpec s = .ok m →
      jGet m "type" = some (.str "object") →
      jHasKey m "required" = true := by
  intro n apiSpec s m hobj href hconv htype
  have h : convertBody (convert n) apiSpec s = .ok m := hconv
  unfold convertBody at h
  rw [hobj] at h
  simp only [Bool.not_true, Bool.false_eq_true, if_false] at h
  rw [href] at h
  cases harm : allOfArmOf s with
  | none =>
      rw [harm] at h
      have hp := convertPlain_type_required (convert n) apiSpec s m h
      have : some (plainType s) = some (JVal.str "object") := by
        rw [← hp.1, htype]
      have hobj2 : plainType s = JVal.str "object" := by
        injection this
      exact hp.2 (by rw [hobj2]; rfl)
  | some av =>
      rw [harm] at h
      cases av with
      | arr subs =>
          obtain ⟨f, hm⟩ := convertAllOf_ok_shape (convert n) apiSpec s m subs h
          rw [hm]
          show fHas (ensureRequired f) "required" = true
          exact fHas_ensureRequired f
      | str v => cases h
      | num v => cases h
      | bool v => cases h
      | null => cases h
      | obj v => cases h

/-- C7 witness: an empty plain schema converts to an object-typed node that
carries the (empty) `required` list. -/
theorem c7_converted_object_nodes_carry_required_witness :
    jHasKey (.obj [("type", .str "object"), ("required", .arr [])])
      "required" = true :=
  c7_converted_object_nodes_carry_required 0 none (.obj [])
    (.obj [("type", .str "object"), ("required", .arr [])]) rfl rfl rfl rfl

/- Lemmas on the allOf merge: scalar attributes. -/

theorem copyScalar_ne (r : JVal) (acc : JFields) (k K : String) (h : k ≠ K) :
    fGet (copyScalar r acc k) K = fGet acc K := by
  unfold copyScalar
  cases hjr : jGet r k with
  | none => rfl
  | some v =>
      dsimp only
      by_cases hc : (jTruthy v && !oTruthy (fGet acc k)) = true
      · rw [if_pos hc]
        exact fGet_fSet_ne acc k K v h
      · rw [if_neg hc]

theorem copyScalar_self (r : JVal) (acc : JFields) (K : String) :
    fGet (copyScalar r acc K) K =
      match jGet r K with
      | some v =>
          if jTruthy v && !oTruthy (fGet acc K) then some v else fGet acc K
      | none => fGet acc K := by
  unfold copyScalar
  cases hjr : jGet r K with
  | none => rfl
  | some v =>
      dsimp only
      by_cases hc : (jTruthy v && !oTruthy (fGet acc K)) = true
      · rw [if_pos hc, if_pos hc, fGet_fSet_self]
      · rw [if_neg hc, if_neg hc]

theorem copyScalars_fold_not_mem (r : JVal) (K : String) :
    ∀ (ks : List String) (acc : JFields), (∀ k ∈ ks, k ≠ K) →
      fGet (ks.foldl (copyScalar r) acc) K = fGet acc K := by
  intro ks
  induction ks with
  | nil => intro acc _; rfl
  | cons k ks ih =>
      intro acc h
      simp only [List.foldl_cons]
      rw [ih _ (fun x hx => h x (List.mem_cons_of_mem _ hx)),
        copyScalar_ne r acc k K (h k (List.mem_cons_self _ _))]

theorem copyScalars_fold_mem (r : JVal) (K : String) :
    ∀ (ks : List String) (acc : JFields), ks.Nodup → K ∈ ks →
      fGet (ks.foldl (copyScalar r) acc) K =
        (match jGet r K with
        | some v =>
            if jTruthy v && !oTruthy (fGet acc K) then some v else fGet acc K
        | none => fGet acc K) := by
  intro ks
  induction ks with
  | nil => intro acc _ hK; cases hK
  | cons k ks ih =>
      intro acc hnd hK
      simp only [List.foldl_cons]
      rcases List.mem_cons.mp hK with hk | hk
      · subst hk
        have hrest : ∀ x ∈ ks, x ≠ K :=
          fun x hx => fun he => (List.nodup_cons.mp hnd).1 (he ▸ hx)
        rw [copyScalars_fold_not_mem r K ks _ hrest, copyScalar_self]
      · have hkK : k ≠ K := fun he => (List.nodup_cons.mp hnd).1 (he ▸ hk)
        rw [ih _ (List.nodup_cons.mp hnd).2 hk]
        rw [copyScalar_ne r acc k K hkK]

theorem mergePropsPart_ok_fGet_ne (conv : JVal → Except String JVal)
    (acc acc1 : JFields) (r : JVal) (K : String) (hkey : "properties" ≠ K)
    (h : mergePropsPart conv acc r = .ok acc1) : fGet acc1 K = fGet acc K := by
  unfold mergePropsPart at h
  split at h
  · split at h
    · obtain ⟨ps, hps, hpure⟩ := exceptBindOkM h
      rw [← exceptPureOk hpure]
      exact fGet_fSet_ne acc "properties" K (.obj ps) hkey
    · rw [exceptPureOk h]
  · rw [exceptPureOk h]

theorem typeInheritPart_fGet_ne (acc : JFields) (r : JVal) (K : String)
    (hkey : "type" ≠ K) : fGet (typeInheritPart acc r) K = fGet acc K := by
  unfold typeInheritPart
  split
  · split
    · exact fGet_fSet_ne acc "type" K _ hkey
    · rfl
  · rfl

theorem mergeRequired_ok_fGet_ne (acc acc2 : JFields) (r : JVal) (K : String)
    (hkey : "required" ≠ K) (h : mergeRequired acc r = .ok acc2) :
    fGet acc2 K = fGet acc K := by
  unfold mergeRequired at h
  split at h
  · split at h
    · split at h
      · injection h with h2
        rw [← h2]
        exact fGet_fSet_ne acc "required" K _ hkey
      · cases h
    · injection h with h2
      rw [← h2]
  · injection h with h2
    rw [← h2]

theorem mergeStep_ok_scalar (conv : JVal → Except String JVal)
    (acc out : JFields) (r : JVal) (K : String) (hK : K ∈ scalarKeys)
    (h : mergeStep conv acc r = .ok out) :
    fGet out K =
      (match jGet r K with
      | some v =>
          if jTruthy v && !oTruthy (fGet acc K) then some v else fGet acc K
      | none => fGet acc K) := by
  have hKp : "properties" ≠ K := by fin_cases hK <;> decide
  have hKr : "required" ≠ K := by fin_cases hK <;> decide
  have hKt : "type" ≠ K := by fin_cases hK <;> decide
  unfold mergeStep at h
  obtain ⟨acc1, h1, h2⟩ := exceptBindOkM h
  obtain ⟨acc2, h3, h4⟩ := exceptBindOkM h2
  rw [← exceptPureOk h4]
  rw [copyScalars_fold_mem r K scalarKeys _ (by decide) hK,
    typeInheritPart_fGet_ne acc2 r K hKt,
    mergeRequired_ok_fGet_ne acc1 acc2 r K hKr h3,
    mergePropsPart_ok_fGet_ne conv acc acc1 r K hKp h1]

theorem mergeFold_scalar_keep (conv : JVal → Except String JVal) (K : String)
    (hK : K ∈ scalarKeys) :
    ∀ (subs : List JVal) (acc f : JFields) (v : JVal),
      fGet acc K = some v → jTruthy v = true →
      subs.foldlM (fun acc b => do
        let r ← conv b
        mergeStep conv acc r) acc = .ok f →
      fGet f K = some v := by
  intro subs
  induction subs with
  | nil =>
      intro acc f v hacc hv h
      simp only [List.foldlM_nil] at h
      rw [← exceptPureOk h]
      exact hacc
  | cons b bs ih =>
      intro acc f v hacc hv h
      rw [List.foldlM_cons] at h
      obtain ⟨acc', hstep, hrest⟩ := exceptBindOkM h
      obtain ⟨r, hr, hms⟩ := exceptBindOkM hstep
      have hout := mergeStep_ok_scalar conv acc acc' r K hK hms
      rw [hacc] at hout
      have hkeep : fGet acc' K = some v := by
        rw [hout]
        cases hjr : jGet r K with
        | none => rfl
        | some w => simp [oTruthy, hv]
      exact ih acc' f v hkeep hv hrest

theorem mergeFold_scalar_none (conv : JVal → Except String JVal) (K : String)
    (hK : K ∈ scalarKeys) :
    ∀ (subs convs : List JVal) (acc f : JFields),
      fGet acc K = none →
      subs.mapM conv = .ok convs →
      subs.foldlM (fun acc b => do
        let r ← conv b
        mergeStep conv acc r) acc = .ok f →
      fGet f K = firstTruthyAttr K convs := by
  intro subs
  induction subs with
  | nil =>
      intro convs acc f hacc hm h
      simp only [List.mapM_nil] at hm
      have hcv := exceptPureOk hm
      simp only [List.foldlM_nil] at h
      rw [← exceptPureOk h, ← hcv]
      exact hacc
  | cons b bs ih =>
      intro convs acc f hacc hm h
      rw [List.mapM_cons] at hm
      obtain ⟨c, hc, hm2⟩ := exceptBindOkM hm
      obtain ⟨cs, hcs, hm3⟩ := exceptBindOkM hm2
      have hcv := exceptPureOk hm3
      rw [← hcv]
      rw [List.foldlM_cons] at h
      obtain ⟨acc', hstep, hrest⟩ := exceptBindOkM h
      obtain ⟨r, hr, hms⟩ := exceptBindOkM hstep
      rw [hc] at hr
      injection hr with hr
      subst hr
      have hout := mergeStep_ok_scalar conv acc acc' c K hK hms
      rw [hacc] at hout
      cases hjc : jGet c K with
      | none =>
          rw [hjc] at hout
          rw [ih cs acc' f hout hcs hrest]
          simp [firstTruthyAttr, hjc]
      | some v =>
          rw [hjc] at hout
          rcases Bool.eq_false_or_eq_true (jTruthy v) with hv | hv
          · rw [mergeFold_scalar_keep conv K hK bs acc' f v (by
              simpa [oTruthy, hv] using hout) hv hrest]
            simp [firstTruthyAttr, hjc, hv]
          · have hnone : fGet acc' K = none := by
              simpa [oTruthy, hv] using hout
            rw [ih cs acc' f hnone hcs hrest]
            simp [firstTruthyAttr, hjc, hv]

/- Lemmas on the allOf merge: required lists and properties. -/

theorem fReqList_congr (f g : JFields)
    (h : fGet f "required" = fGet g "required") : fReqList f = fReqList g := by
  unfold fReqList
  rw [h]

theorem fPropHas_congr (f g : JFields) (key : String)
    (h : fGet f "properties" = fGet g "properties") :
    fPropHas f key = fPropHas g key := by
  unfold fPropHas
  rw [h]

theorem propsInv_congr (f g : JFields)
    (h : fGet f "properties" = fGet g "properties") (hg : propsInv f) :
    propsInv g := by
  unfold propsInv at *
  rw [← h]
  exact hg

theorem mergeRequired_ok_req (acc acc2 : JFields) (r : JVal)
    (h : mergeRequired acc r = .ok acc2) :
    fReqList acc2 = fReqList acc ++
      (branchReq r).filter (fun x => !jvalIncludes (fReqList acc) x) := by
  unfold mergeRequired at h
  split at h
  · rename_i rv hjr
    split at h
    · rename_i htv
      split at h
      · rename_i rs
        injection h with h2
        rw [← h2]
        unfold fReqList branchReq
        rw [fGet_fSet_self, hjr]
      · cases h
    · rename_i htv
      injection h with h2
      rw [← h2]
      have hbr : branchReq r = [] := by
        unfold branchReq
        rw [hjr]
        cases rv with
        | arr xs => simp [jTruthy] at htv
        | str v => rfl
        | num v => rfl
        | bool v => rfl
        | null => rfl
        | obj v => rfl
      rw [hbr]
      simp
  · rename_i hjr
    injection h with h2
    rw [← h2]
    have hbr : branchReq r = [] := by
      unfold branchReq
      rw [hjr]
    rw [hbr]
    simp

theorem mergeStep_ok_required (conv : JVal → Except String JVal)
    (acc out : JFields) (r : JVal) (h : mergeStep conv acc r = .ok out) :
    fReqList out = fReqList acc ++
      (branchReq r).filter (fun x => !jvalIncludes (fReqList acc) x) := by
  unfold mergeStep at h
  obtain ⟨acc1, h1, h2⟩ := exceptBindOkM h
  obtain ⟨acc2, h3, h4⟩ := exceptBindOkM h2
  rw [← exceptPureOk h4]
  have hs : fGet (scalarKeys.foldl (copyScalar r) (typeInheritPart acc2 r))
      "required" = fGet acc2 "required" := by
    rw [copyScalars_fold_not_mem r "required" scalarKeys _ (by decide),
      typeInheritPart_fGet_ne _ _ _ (by decide)]
  have hacc1 : fReqList acc1 = fReqList acc :=
    fReqList_congr _ _
      (mergePropsPart_ok_fGet_ne conv acc acc1 r "required" (by decide) h1)
  rw [fReqList_congr _ _ hs, mergeRequired_ok_req acc1 acc2 r h3, hacc1]

theorem mergeFold_required (conv : JVal → Except String JVal) :
    ∀ (subs convs : List JVal) (acc f : JFields),
      subs.mapM conv = .ok convs →
      subs.foldlM (fun acc b => do
        let r ← conv b
        mergeStep conv acc r) acc = .ok f →
      fReqList f = unionNoDup (fReqList acc) (convs.map branchReq) := by
  intro subs
  induction subs with
  | nil =>
      intro convs acc f hm h
      simp only [List.mapM_nil] at hm
      have hcv := exceptPureOk hm
      simp only [List.foldlM_nil] at h
      rw [← exceptPureOk h, ← hcv]
      rfl
  | cons b bs ih =>
      intro convs acc f hm h
      rw [List.mapM_cons] at hm
      obtain ⟨c, hc, hm2⟩ := exceptBindOkM hm
      obtain ⟨cs, hcs, hm3⟩ := exceptBindOkM hm2
      rw [← exceptPureOk hm3]
      rw [List.foldlM_cons] at h
      obtain ⟨acc', hstep, hrest⟩ := exceptBindOkM h
      obtain ⟨r, hr, hms⟩ := exceptBindOkM hstep
      rw [hc] at hr
      injection hr with hr
      subst hr
      rw [ih cs acc' f hcs hrest, mergeStep_ok_required conv acc acc' c hms]
      rfl

theorem entriesFold_fHas (conv : JVal → Except String JVal) (key : String) :
    ∀ (entries : List (String × JVal)) (cur ps : JFields),
      entries.foldlM (fun ps kv => do
        let v ← conv kv.2
        pure (fSet ps kv.1 v)) cur = .ok ps →
      fHas ps key = (fHas cur key || entries.any (fun kv => kv.1 = key)) := by
  intro entries
  induction entries with
  | nil =>
      intro cur ps h
      simp only [List.foldlM_nil] at h
      rw [← exceptPureOk h]
      simp
  | cons kv es ih =>
      intro cur ps h
      rw [List.foldlM_cons] at h
      obtain ⟨cur2, hstep, hrest⟩ := exceptBindOkM h
      obtain ⟨v, hv, hpure⟩ := exceptBindOkM hstep
      rw [← exceptPureOk hpure] at hrest
      rw [ih _ _ hrest, fHas_fSet]
      simp [Bool.or_assoc, Bool.or_comm, Bool.or_left_comm]

theorem mergePropsPart_ok_propHas (conv : JVal → Except String JVal)
    (acc acc1 : JFields) (r : JVal) (key : String) (hinv : propsInv acc)
    (h : mergePropsPart conv acc r = .ok acc1) :
    fPropHas acc1 key = (fPropHas acc key || branchHasProp r key) ∧
    propsInv acc1 := by
  unfold mergePropsPart at h
  split at h
  · rename_i pv hjr
    split at h
    · rename_i htv
      have hbh : branchHasProp r key =
          (jsEntries pv).any (fun kv => kv.1 = key) := by
        simp [branchHasProp, hjr, htv]
      rcases hinv with hni | ⟨ps0, hsi⟩
      · rw [hni] at h
        dsimp only at h
        obtain ⟨ps, hps, hpure⟩ := exceptBindOkM h
        rw [← exceptPureOk hpure]
        refine ⟨?_, Or.inr ⟨ps, fGet_fSet_self _ _ _⟩⟩
        have hfh : fPropHas (fSet acc "properties" (.obj ps)) key =
            fHas ps key := by
          unfold fPropHas
          rw [fGet_fSet_self]
        rw [hfh, hbh, entriesFold_fHas conv key _ _ _ hps]
        have hpa : fPropHas acc key = false := by
          unfold fPropHas
          rw [hni]
        rw [hpa]
        simp [fHas, fGet]
      · rw [hsi] at h
        dsimp only at h
        obtain ⟨ps, hps, hpure⟩ := exceptBindOkM h
        rw [← exceptPureOk hpure]
        refine ⟨?_, Or.inr ⟨ps, fGet_fSet_self _ _ _⟩⟩
        have hfh : fPropHas (fSet acc "properties" (.obj ps)) key =
            fHas ps key := by
          unfold fPropHas
          rw [fGet_fSet_self]
        rw [hfh, hbh, entriesFold_fHas conv key _ _ _ hps]
        have hpa : fPropHas acc key = fHas ps0 key := by
          unfold fPropHas
          rw [hsi]
        rw [hpa]
    · rename_i htv
      rw [← exceptPureOk h]
      refine ⟨?_, hinv⟩
      have hbh : branchHasProp r key = false := by
        rw [Bool.not_eq_true] at htv
        simp [branchHasProp, hjr, htv]
      rw [hbh]
      simp
  · rename_i hjr
    rw [← exceptPureOk h]
    refine ⟨?_, hinv⟩
    have hbh : branchHasProp r key = false := by
      simp [branchHasProp, hjr]
    rw [hbh]
    simp

theorem mergeStep_ok_propHas (conv : JVal → Except String JVal)
    (acc out : JFields) (r : JVal) (key : String) (hinv : propsInv acc)
    (h : mergeStep conv acc r = .ok out) :
    fPropHas out key = (fPropHas acc key || branchHasProp r key) ∧
    propsInv out := by
  unfold mergeStep at h
  obtain ⟨acc1, h1, h2⟩ := exceptBindOkM h
  obtain ⟨acc2, h3, h4⟩ := exceptBindOkM h2
  rw [← exceptPureOk h4]
  have h12 := mergePropsPart_ok_propHas conv acc acc1 r key hinv h1
  have hpres : fGet (scalarKeys.foldl (copyScalar r) (typeInheritPart acc2 r))
      "properties" = fGet acc1 "properties" := by
    rw [copyScalars_fold_not_mem r "properties" scalarKeys _ (by decide),
      typeInheritPart_fGet_ne _ _ _ (by decide),
      mergeRequired_ok_fGet_ne acc1 acc2 r "properties" (by decide) h3]
  exact ⟨by rw [fPropHas_congr _ _ key hpres, h12.1],
    propsInv_congr _ _ hpres.symm h12.2⟩

theorem mergeFold_propHas (conv : JVal → Except String JVal) (key : String) :
    ∀ (subs convs : List JVal) (acc f : JFields),
      propsInv acc →
      subs.mapM conv = .ok convs →
      subs.foldlM (fun acc b => do
        let r ← conv b
        mergeStep conv acc r) acc = .ok f →
      fPropHas f key =
        (fPropHas acc key || convs.any (fun c => branchHasProp c key)) := by
  intro subs
  induction subs with
  | nil =>
      intro convs acc f hinv hm h
      simp only [List.mapM_nil] at hm
      have hcv := exceptPureOk hm
      simp only [List.foldlM_nil] at h
      rw [← exceptPureOk h, ← hcv]
      simp
  | cons b bs ih =>
      intro convs acc f hinv hm h
      rw [List.mapM_cons] at hm
      obtain ⟨c, hc, hm2⟩ := exceptBindOkM hm
      obtain ⟨cs, hcs, hm3⟩ := exceptBindOkM hm2
      rw [← exceptPureOk hm3]
      rw [List.foldlM_cons] at h
      obtain ⟨acc', hstep, hrest⟩ := exceptBindOkM h
      obtain ⟨r, hr, hms⟩ := exceptBindOkM hstep
      rw [hc] at hr
      injection hr with hr
      subst hr
      have hms2 := mergeStep_ok_propHas conv acc acc' c key hinv hms
      rw [ih cs acc' f hms2.2 hcs hrest, hms2.1]
      simp [Bool.or_assoc]

theorem ensureRequired_fGet_ne (f : JFields) (K : String)
    (h : "required" ≠ K) : fGet (ensureRequired f) K = fGet f K := by
  unfold ensureRequired
  split
  · rfl
  · exact fGet_fSet_ne f "required" K _ h

theorem fReqList_ensureRequired (f : JFields) :
    fReqList (ensureRequired f) = fReqList f := by
  unfold ensureRequired
  split
  · rfl
  · rename_i hn
    unfold fReqList
    rw [fGet_fSet_self]
    cases hg : fGet f "required" with
    | none => rfl
    | some v =>
        rw [hg] at hn
        cases v with
        | arr xs => simp [oTruthy, jTruthy] at hn
        | str s => rfl
        | num n => rfl
        | bool b => rfl
        | null => rfl
        | obj o => rfl

/-- C3 (amended): for every allOf conversion, (i) each scalar attribute of the
merged result is the first truthy value that attribute takes across the
converted branches — a branch carrying a falsy value (e.g. minimum 0) is
skipped, so the first branch that *defines* an attribute does not always win
(see the counterexample); (ii) a name is a merged property exactly when some
converted branch carries it in a truthy `properties` value (union, later
same-named entries overwriting in place); (iii) the merged required list is
the left-to-right union of the branches' required lists keeping first
occurrences.  Concretely: disjoint properties are unioned, a scalar declared
truthy in only one branch is retained, and the same truthy scalar in both
branches keeps the first branch's value. -/
theorem c3_allof_merge_union_and_first_truthy :
    (∀ (n : Nat) (apiSpec : Option JVal) (s m : JVal) (subs convs : List JVal),
        isObjLike s = true → jGet s "$ref" = none →
        allOfArmOf s = some (.arr subs) →
        List.mapM (convert n apiSpec) subs = .ok convs →
        convert (n + 1) apiSpec s = .ok m →
        (∀ K ∈ scalarKeys, jGet m K = firstTruthyAttr K convs) ∧
        (∀ key, jPropHas m key = convs.any (fun c => branchHasProp c key)) ∧
        jReqList m = unionNoDup [] (convs.map branchReq)) ∧
    (convert 3 none allOfDisjointProps).toOption.map
      (fun m => (jPropHas m "a", jPropHas m "b")) = some (true, true) ∧
    okGet (convert 2 none allOfOnePattern) "pattern" = some (.str "^a+$") ∧
    okGet (convert 2 none allOfTwoFormats) "format" = some (.str "uuid") := by
  refine ⟨?_, rfl, rfl, rfl⟩
  intro n apiSpec s m subs convs hobj href harm hmapM hconv
  have h : convertAllOf (convert n) apiSpec s subs = .ok m := by
    have h0 : convertBody (convert n) apiSpec s = .ok m := hconv
    unfold convertBody at h0
    rw [hobj] at h0
    simp only [Bool.not_true, Bool.false_eq_true, if_false] at h0
    rw [href, harm] at h0
    exact h0
  unfold convertAllOf at h
  obtain ⟨f, hf, hpure⟩ := exceptBindOkM h
  have hm : m = .obj (ensureRequired f) := (exceptPureOk hpure).symm
  subst hm
  have hinitP : fGet (condCopyTruthy s "description" [("type", plainType s)])
      "properties" = none := by
    rw [fGet_condCopyTruthy_ne _ _ _ _ (by decide)]
    rfl
  have hinitR : fGet (condCopyTruthy s "description" [("type", plainType s)])
      "required" = none := by
    rw [fGet_condCopyTruthy_ne _ _ _ _ (by decide)]
    rfl
  refine ⟨?_, ?_, ?_⟩
  · intro K hK
    have hKd : "description" ≠ K := by fin_cases hK <;> decide
    have hKt : "type" ≠ K := by fin_cases hK <;> decide
    have hKr : "required" ≠ K := by fin_cases hK <;> decide
    have hinitK : fGet (condCopyTruthy s "description"
        [("type", plainType s)]) K = none := by
      rw [fGet_condCopyTruthy_ne _ _ _ _ hKd]
      simp [fGet, hKt]
    have he : jGet (JVal.obj (ensureRequired f)) K =
        fGet (ensureRequired f) K := rfl
    rw [he, ensureRequired_fGet_ne f K hKr]
    exact mergeFold_scalar_none (convert n apiSpec) K hK subs convs _ f
      hinitK hmapM hf
  · intro key
    have h2 := mergeFold_propHas (convert n apiSpec) key subs convs _ f
      (Or.inl hinitP) hmapM hf
    have hpres : fGet (ensureRequired f) "properties" =
        fGet f "properties" := ensureRequired_fGet_ne f "properties" (by decide)
    have he : jPropHas (JVal.obj (ensureRequired f)) key =
        fPropHas (ensureRequired f) key := rfl
    rw [he, fPropHas_congr _ _ key hpres, h2]
    have hpa : fPropHas (condCopyTruthy s "description"
        [("type", plainType s)]) key = false := by
      unfold fPropHas
      rw [hinitP]
    rw [hpa]
    simp
  · have h2 := mergeFold_required (convert n apiSpec) subs convs _ f hmapM hf
    have he : jReqList (JVal.obj (ensureRequired f)) =
        fReqList (ensureRequired f) := rfl
    rw [he, fReqList_ensureRequired, h2]
    have hra : fReqList (condCopyTruthy s "description"
        [("type", plainType s)]) = [] := by
      unfold fReqList
      rw [hinitR]
    rw [hra]

/-- C3 witness: merging two branches that both declare a truthy `format`
keeps the first branch's value, which is the first truthy value across the
converted branches. -/
theorem c3_allof_merge_union_and_first_truthy_witness :
    jGet (.obj [("type", .str "object"), ("format", .str "uuid"),
      ("required", .arr [])]) "format" =
    firstTruthyAttr "format"
      [.obj [("type", .str "string"), ("format", .str "uuid")],
       .obj [("type", .str "string"), ("format", .str "email")]] :=
  (c3_allof_merge_union_and_first_truthy.1 1 none allOfTwoFormats
    (.obj [("type", .str "object"), ("format", .str "uuid"),
      ("required", .arr [])])
    [.obj [("type", .str "string"), ("format", .str "uuid")],
     .obj [("type", .str "string"), ("format", .str "email")]]
    [.obj [("type", .str "string"), ("format", .str "uuid")],
     .obj [("type", .str "string"), ("format", .str "email")]]
    rfl rfl rfl rfl rfl).1 "format" (by decide)
